import Mathlib

/-!
Verification development for a 2D SPH (smoothed particle hydrodynamics)
Rayleigh-Taylor solver.  The numerical core (kernels.py, boundaries.py,
neighbor_search.py, physics.py, sph_solver.py, and the resume logic of
simulation.py) is shallowly embedded below: numpy float64 arithmetic is
modelled by the real numbers, parallel numpy arrays by parallel lists,
loop accumulations by finite sums, and `int(...)` truncation by an
explicit truncation toward zero on ℝ.  NaN has no counterpart in ℝ; the
`np.isnan` guards in physics.py are modelled as never firing (densities
in the model are genuine reals), which is noted at each use site.
-/

namespace SPH

noncomputable section

open Real

abbrev Vec2 := ℝ × ℝ

/-- Python/numba `int(x)`: truncation of a float toward zero. -/
def pyInt (x : ℝ) : ℤ := if 0 ≤ x then ⌊x⌋ else ⌈x⌉

/-! ## kernels.py -/

/-- Normalization prefactor for the 2D cubic spline (kernels.py line 5). -/
def KERNEL_PREFACTOR_2D : ℝ := 10.0 / (7.0 * Real.pi)

/-- `cubic_spline_kernel(r, h)` from kernels.py. -/
def cubic_spline_kernel (r h : ℝ) : ℝ :=
  let q := r / h
  let sigma := KERNEL_PREFACTOR_2D / h ^ 2
  if q < 1 then sigma * (1.0 - 1.5 * q ^ 2 + 0.75 * q ^ 3)
  else if q < 2 then sigma * 0.25 * (2.0 - q) ^ 3
  else 0.0

/-- `cubic_spline_kernel_grad(r_vec, h)` from kernels.py. -/
def cubic_spline_kernel_grad (rv : Vec2) (h : ℝ) : Vec2 :=
  let r := Real.sqrt (rv.1 ^ 2 + rv.2 ^ 2)
  let q := r / h
  let sigma := KERNEL_PREFACTOR_2D / h ^ 2
  if r > 1e-12 then
    if q < 1 then
      let v := sigma * (1.0 / h) * (-3.0 * q + 2.25 * q ^ 2)
      (v * (rv.1 / r), v * (rv.2 / r))
    else if q < 2 then
      let v := sigma * (1.0 / h) * (-0.75 * (2.0 - q) ^ 2)
      (v * (rv.1 / r), v * (rv.2 / r))
    else (0, 0)
  else (0, 0)

lemma kernel_prefactor_pos : 0 < KERNEL_PREFACTOR_2D := by
  unfold KERNEL_PREFACTOR_2D
  positivity

lemma sqrt_sq_add_sq_nonneg (x y : ℝ) : 0 ≤ Real.sqrt (x ^ 2 + y ^ 2) :=
  Real.sqrt_nonneg _

/-- C7: for `h > 0` the kernel vanishes (with zero gradient) at or beyond the
cutoff `2h`, the kernel is non-negative on `r ≥ 0`, and the gradient of a
separation vector shorter than the `1e-12` epsilon is the zero vector. -/
theorem kernel_support_and_sign (h : ℝ) (hh : 0 < h) :
    (∀ r : ℝ, 2 * h ≤ r → cubic_spline_kernel r h = 0) ∧
    (∀ r : ℝ, 0 ≤ r → 0 ≤ cubic_spline_kernel r h) ∧
    (∀ rv : Vec2, 2 * h ≤ Real.sqrt (rv.1 ^ 2 + rv.2 ^ 2) →
      cubic_spline_kernel_grad rv h = (0, 0)) ∧
    (∀ rv : Vec2, Real.sqrt (rv.1 ^ 2 + rv.2 ^ 2) < 1e-12 →
      cubic_spline_kernel_grad rv h = (0, 0)) := by
  have hq2 : ∀ r : ℝ, 2 * h ≤ r → ¬ (r / h < 2) := by
    intro r hr hlt
    have := (div_lt_iff hh).mp hlt
    linarith
  have hq1 : ∀ r : ℝ, 2 * h ≤ r → ¬ (r / h < 1) := by
    intro r hr hlt
    have := (div_lt_iff hh).mp hlt
    linarith
  refine ⟨?_, ?_, ?_, ?_⟩
  · intro r hr
    unfold cubic_spline_kernel
    rw [if_neg (hq1 r hr), if_neg (hq2 r hr)]
    norm_num
  · intro r hr
    have hq0 : 0 ≤ r / h := div_nonneg hr hh.le
    have hsig : 0 ≤ KERNEL_PREFACTOR_2D / h ^ 2 := by
      have := kernel_prefactor_pos
      positivity
    unfold cubic_spline_kernel
    by_cases h1 : r / h < 1
    · rw [if_pos h1]
      have hpoly : 0 ≤ 1.0 - 1.5 * (r / h) ^ 2 + 0.75 * (r / h) ^ 3 := by
        set q := r / h
        nlinarith [sq_nonneg q, sq_nonneg (1 - q), mul_nonneg hq0 (sq_nonneg (1 - q))]
      exact mul_nonneg hsig hpoly
    · rw [if_neg h1]
      by_cases h2 : r / h < 2
      · rw [if_pos h2]
        have : 0 ≤ (2.0 - r / h) ^ 3 := by
          have : 0 ≤ 2.0 - r / h := by linarith
          positivity
        have h025 : (0:ℝ) ≤ 0.25 := by norm_num
        exact mul_nonneg (mul_nonneg hsig h025) this
      · rw [if_neg h2]
        norm_num
  · intro rv hr
    unfold cubic_spline_kernel_grad
    by_cases hsm : Real.sqrt (rv.1 ^ 2 + rv.2 ^ 2) > 1e-12
    · rw [if_pos hsm, if_neg (hq1 _ hr), if_neg (hq2 _ hr)]
    · rw [if_neg hsm]
  · intro rv hr
    unfold cubic_spline_kernel_grad
    have : ¬ (Real.sqrt (rv.1 ^ 2 + rv.2 ^ 2) > 1e-12) := by linarith
    rw [if_neg this]

/-- Witness for C7 at `h = 1` and concrete separations. -/
theorem kernel_support_and_sign_witness :
    cubic_spline_kernel 2 1 = 0 ∧ 0 ≤ cubic_spline_kernel 0.5 1 ∧
    cubic_spline_kernel_grad (2, 0) 1 = (0, 0) ∧
    cubic_spline_kernel_grad (0, 0) 1 = (0, 0) := by
  obtain ⟨h1, h2, h3, h4⟩ := kernel_support_and_sign 1 one_pos
  refine ⟨h1 2 (by norm_num), h2 0.5 (by norm_num), h3 (2, 0) ?_, h4 (0, 0) ?_⟩
  · have : ((2:ℝ) ^ 2 + 0 ^ 2) = 2 ^ 2 := by norm_num
    rw [this, Real.sqrt_sq (by norm_num)]
    norm_num
  · have : ((0:ℝ) ^ 2 + 0 ^ 2) = 0 := by norm_num
    rw [this, Real.sqrt_zero]
    norm_num

/-! ## List helpers for the parallel-array embedding -/

lemma getD_map_of_lt {α β : Type} (l : List α) (f : α → β) {i : ℕ} (hi : i < l.length)
    (d : α) (d' : β) : (l.map f).getD i d' = f (l.getD i d) := by
  induction l generalizing i with
  | nil => simp at hi
  | cons a t ih =>
    cases i with
    | zero => simp
    | succ j =>
      simp only [List.map_cons, List.getD_cons_succ]
      exact ih (by simpa using hi)

lemma range_map_getD {α β : Type} (l : List α) (f : α → β) (d : α) :
    (List.range l.length).map (fun i => f (l.getD i d)) = l.map f := by
  induction l with
  | nil => simp
  | cons a t ih =>
    simp only [List.length_cons, List.range_succ_eq_map, List.map_cons, List.getD_cons_zero,
      List.map_map]
    refine congrArg (f a :: ·) ?_
    have : ((List.range t.length).map fun i => f ((a :: t).getD (Nat.succ i) d)) =
        (List.range t.length).map fun i => f (t.getD i d) := by
      refine List.map_congr_left fun i _ => ?_
      simp
    calc (List.range t.length).map ((fun i => f ((a :: t).getD i d)) ∘ Nat.succ)
        = (List.range t.length).map fun i => f ((a :: t).getD (Nat.succ i) d) := rfl
      _ = (List.range t.length).map fun i => f (t.getD i d) := this
      _ = t.map f := ih

lemma filter_of_map {α β : Type} (l : List α) (f : α → β) (p : β → Bool) :
    (l.map f).filter p = (l.filter fun a => p (f a)).map f := by
  induction l with
  | nil => simp
  | cons a t ih =>
    by_cases h : p (f a)
    · simp [List.filter_cons, h, ih]
    · simp [List.filter_cons, h, ih]

lemma getD_append_left' {α : Type} (l l' : List α) (d : α) (i : ℕ) (h : i < l.length) :
    (l ++ l').getD i d = l.getD i d := List.getD_append _ _ _ _ h

lemma getD_append_offset {α : Type} (l l' : List α) (d : α) (k i : ℕ) (hk : l.length = k) :
    (l ++ l').getD (k + i) d = l'.getD i d := by
  subst hk
  rw [List.getD_append_right _ _ _ _ (by omega)]
  congr 1
  omega

/-! ## Particle state: parallel arrays (structure-of-arrays, as in the source) -/

structure PState where
  pos : List Vec2
  vel : List Vec2
  mass : List ℝ
  dens : List ℝ
  col : List ℤ
  rref : List ℝ

/-- All parallel arrays have the length of the positions array. -/
def PState.WF (s : PState) : Prop :=
  s.vel.length = s.pos.length ∧ s.mass.length = s.pos.length ∧
  s.dens.length = s.pos.length ∧ s.col.length = s.pos.length ∧
  s.rref.length = s.pos.length

def PState.append (a b : PState) : PState :=
  ⟨a.pos ++ b.pos, a.vel ++ b.vel, a.mass ++ b.mass, a.dens ++ b.dens,
   a.col ++ b.col, a.rref ++ b.rref⟩

/-- One particle, as a record (used to state rowwise properties of the
parallel-array code). -/
structure Row where
  pos : Vec2
  vel : Vec2
  mass : ℝ
  dens : ℝ
  col : ℤ
  rref : ℝ

def PState.row (s : PState) (i : ℕ) : Row :=
  ⟨s.pos.getD i (0, 0), s.vel.getD i (0, 0), s.mass.getD i 0, s.dens.getD i 0,
   s.col.getD i 0, s.rref.getD i 0⟩

def PState.rows (s : PState) : List Row :=
  (List.range s.pos.length).map s.row

/-! ## boundaries.py -/

/-- Mirror a position about the wall plane `wall` in axis `dim`
(`p[:, dim] = 2.0 * wall - p[:, dim]`). -/
def reflectP (dim : ℕ) (wall : ℝ) (p : Vec2) : Vec2 :=
  if dim = 0 then (2.0 * wall - p.1, p.2) else (p.1, 2.0 * wall - p.2)

/-- Negate the wall-normal velocity component (`v[:, dim] = -v[:, dim]`). -/
def flipV (dim : ℕ) (v : Vec2) : Vec2 :=
  if dim = 0 then (-v.1, v.2) else (v.1, -v.2)

/-- Indices selected by a numpy boolean mask over `positions`. -/
def maskIdx (positions : List Vec2) (pred : Vec2 → Prop) [DecidablePred pred] : List ℕ :=
  (List.range positions.length).filter fun i => decide (pred (positions.getD i (0, 0)))

/-- One of the four ghost blocks in `generate_ghost_particles`: real particles
selected by `pred`, position mirrored about `wall` in axis `dim`, the `dim`
velocity component negated, every other field copied. -/
def ghostCase (s : PState) (dim : ℕ) (pred : Vec2 → Prop) [DecidablePred pred]
    (wall : ℝ) : PState :=
  let idx := maskIdx s.pos pred
  { pos := idx.map fun i => reflectP dim wall (s.pos.getD i (0, 0))
    vel := idx.map fun i => flipV dim (s.vel.getD i (0, 0))
    mass := idx.map fun i => s.mass.getD i 0
    dens := idx.map fun i => s.dens.getD i 0
    col := idx.map fun i => s.col.getD i 0
    rref := idx.map fun i => s.rref.getD i 0 }

/-- `generate_ghost_particles` from boundaries.py, with `search_dist = 2.0 * h`
inlined.  The source's early return when no block is non-empty produces the
same arrays as appending the (empty) blocks, so the concatenation below covers
both branches. -/
def generate_ghost_particles (s : PState) (h : ℝ) (dmin dmax : Vec2) : PState :=
  (((s.append (ghostCase s 0 (fun p => p.1 < dmin.1 + 2.0 * h) dmin.1)).append
      (ghostCase s 0 (fun p => p.1 > dmax.1 - 2.0 * h) dmax.1)).append
      (ghostCase s 1 (fun p => p.2 < dmin.2 + 2.0 * h) dmin.2)).append
      (ghostCase s 1 (fun p => p.2 > dmax.2 - 2.0 * h) dmax.2)

/-! Specification-side ghost generator, written from the claim's words:
real rows first, then for each of the 4 wall cases (x-lo, x-hi, y-lo, y-hi)
one ghost row per real row within `2h` of that wall, the ghost carrying the
mirrored position, the negated wall-normal velocity component, and the
original mass/density/color/rho_ref. -/

def ghostRowSpec (dim : ℕ) (wall : ℝ) (r : Row) : Row :=
  { r with pos := reflectP dim wall r.pos, vel := flipV dim r.vel }

def ghostsSpec (rows : List Row) (h : ℝ) (dmin dmax : Vec2) : List Row :=
  rows
  ++ ((rows.filter fun r => decide (r.pos.1 < dmin.1 + 2.0 * h)).map (ghostRowSpec 0 dmin.1))
  ++ ((rows.filter fun r => decide (r.pos.1 > dmax.1 - 2.0 * h)).map (ghostRowSpec 0 dmax.1))
  ++ ((rows.filter fun r => decide (r.pos.2 < dmin.2 + 2.0 * h)).map (ghostRowSpec 1 dmin.2))
  ++ ((rows.filter fun r => decide (r.pos.2 > dmax.2 - 2.0 * h)).map (ghostRowSpec 1 dmax.2))

lemma ghostCase_rows (s : PState) (hwf : s.WF) (dim : ℕ) (pred : Vec2 → Prop)
    [DecidablePred pred] (wall : ℝ) :
    (ghostCase s dim pred wall).rows =
      (s.rows.filter fun r => decide (pred r.pos)).map (ghostRowSpec dim wall) := by
  obtain ⟨hv, hm, hd, hc, hr⟩ := hwf
  have hidx : ∀ i ∈ maskIdx s.pos pred, i < s.pos.length := by
    intro i hi
    have := List.mem_range.mp (List.mem_of_mem_filter hi)
    exact this
  -- right side: filter of rows = map of row over masked indices
  have hrws : s.rows.filter (fun r => decide (pred r.pos)) =
      (maskIdx s.pos pred).map s.row := by
    unfold PState.rows maskIdx
    rw [filter_of_map]
    refine congrArg (List.map s.row) (List.filter_congr fun i hi => ?_)
    have hlt : i < s.pos.length := List.mem_range.mp hi
    simp [PState.row]
  rw [hrws, List.map_map]
  -- left side
  unfold PState.rows
  set idx := maskIdx s.pos pred with hidxdef
  have hlen : (ghostCase s dim pred wall).pos.length = idx.length := by
    simp [ghostCase]
  rw [hlen]
  have : ∀ i ∈ List.range idx.length, (ghostCase s dim pred wall).row i =
      (ghostRowSpec dim wall ∘ s.row) (idx.getD i 0) := by
    intro i hi
    have hlt : i < idx.length := List.mem_range.mp hi
    unfold PState.row ghostCase ghostRowSpec
    simp only [Function.comp]
    congr 1 <;>
      rw [getD_map_of_lt _ _ hlt 0]
  rw [List.map_congr_left this, range_map_getD idx _ 0]

lemma rows_append (a b : PState) (ha : a.WF) (hb : b.WF) :
    (a.append b).rows = a.rows ++ b.rows := by
  obtain ⟨hv, hm, hd, hc, hr⟩ := ha
  obtain ⟨hv', hm', hd', hc', hr'⟩ := hb
  unfold PState.rows PState.append
  simp only [List.length_append]
  rw [List.range_add, List.map_append, List.map_map]
  congr 1
  · refine List.map_congr_left fun i hi => ?_
    have hlt : i < a.pos.length := List.mem_range.mp hi
    unfold PState.row
    simp only
    congr 1
    · exact getD_append_left' _ _ _ _ (by omega)
    · exact getD_append_left' _ _ _ _ (by omega)
    · exact getD_append_left' _ _ _ _ (by omega)
    · exact getD_append_left' _ _ _ _ (by omega)
    · exact getD_append_left' _ _ _ _ (by omega)
    · exact getD_append_left' _ _ _ _ (by omega)
  · refine List.map_congr_left fun i hi => ?_
    have hlt : i < b.pos.length := List.mem_range.mp hi
    unfold PState.row
    simp only [Function.comp]
    congr 1
    · exact getD_append_offset _ _ _ _ _ rfl
    · exact getD_append_offset _ _ _ _ _ hv
    · exact getD_append_offset _ _ _ _ _ hm
    · exact getD_append_offset _ _ _ _ _ hd
    · exact getD_append_offset _ _ _ _ _ hc
    · exact getD_append_offset _ _ _ _ _ hr

lemma ghostCase_WF (s : PState) (dim : ℕ) (pred : Vec2 → Prop) [DecidablePred pred]
    (wall : ℝ) : (ghostCase s dim pred wall).WF := by
  unfold ghostCase PState.WF
  simp

lemma append_WF {a b : PState} (ha : a.WF) (hb : b.WF) : (a.append b).WF := by
  obtain ⟨hv, hm, hd, hc, hr⟩ := ha
  obtain ⟨hv', hm', hd', hc', hr'⟩ := hb
  unfold PState.append PState.WF
  simp only [List.length_append]
  omega

/-- C6: the ghost generator returns the real particles followed by the four
wall-case blocks (x-lo, x-hi, y-lo, y-hi), each carrying one ghost per real
particle within `2h` of that wall with mirrored position, negated wall-normal
velocity, tangential velocity and all other fields unchanged (a corner
particle hence yields one ghost per axis, never a combined diagonal ghost);
and when no particle is within `2h` of any wall the result is exactly the
real set. -/
theorem generate_ghost_particles_spec (s : PState) (h : ℝ) (dmin dmax : Vec2)
    (hwf : s.WF) :
    (generate_ghost_particles s h dmin dmax).rows = ghostsSpec s.rows h dmin dmax ∧
    ((∀ p ∈ s.pos, ¬(p.1 < dmin.1 + 2.0 * h) ∧ ¬(p.1 > dmax.1 - 2.0 * h) ∧
        ¬(p.2 < dmin.2 + 2.0 * h) ∧ ¬(p.2 > dmax.2 - 2.0 * h)) →
      generate_ghost_particles s h dmin dmax = s) := by
  constructor
  · unfold generate_ghost_particles ghostsSpec
    have w1 := ghostCase_WF s 0 (fun p => p.1 < dmin.1 + 2.0 * h) dmin.1
    have w2 := ghostCase_WF s 0 (fun p => p.1 > dmax.1 - 2.0 * h) dmax.1
    have w3 := ghostCase_WF s 1 (fun p => p.2 < dmin.2 + 2.0 * h) dmin.2
    have w4 := ghostCase_WF s 1 (fun p => p.2 > dmax.2 - 2.0 * h) dmax.2
    rw [rows_append _ _ (append_WF (append_WF (append_WF hwf w1) w2) w3) w4,
        rows_append _ _ (append_WF (append_WF hwf w1) w2) w3,
        rows_append _ _ (append_WF hwf w1) w2,
        rows_append _ _ hwf w1,
        ghostCase_rows s hwf, ghostCase_rows s hwf, ghostCase_rows s hwf,
        ghostCase_rows s hwf]
  · intro hnone
    have hempty : ∀ (pred : Vec2 → Prop) [DecidablePred pred],
        (∀ p ∈ s.pos, ¬ pred p) → maskIdx s.pos pred = [] := by
      intro pred _ hp
      unfold maskIdx
      rw [List.filter_eq_nil_iff]
      intro i hi
      have hlt : i < s.pos.length := List.mem_range.mp hi
      have hmem : s.pos.getD i (0, 0) ∈ s.pos := by
        rw [List.getD_eq_getElem _ _ hlt]
        exact List.getElem_mem _
      simpa using hp _ hmem
    have h1 : maskIdx s.pos (fun p => p.1 < dmin.1 + 2.0 * h) = [] :=
      hempty _ (fun p hp => (hnone p hp).1)
    have h2 : maskIdx s.pos (fun p => p.1 > dmax.1 - 2.0 * h) = [] :=
      hempty _ (fun p hp => (hnone p hp).2.1)
    have h3 : maskIdx s.pos (fun p => p.2 < dmin.2 + 2.0 * h) = [] :=
      hempty _ (fun p hp => (hnone p hp).2.2.1)
    have h4 : maskIdx s.pos (fun p => p.2 > dmax.2 - 2.0 * h) = [] :=
      hempty _ (fun p hp => (hnone p hp).2.2.2)
    unfold generate_ghost_particles ghostCase PState.append
    rw [h1, h2, h3, h4]
    cases s
    simp

/-- Witness for C6: a single particle at the center of a 10 by 10 box, `h = 1`;
no wall is within reach, so the augmented set is the real set. -/
theorem generate_ghost_particles_spec_witness :
    (generate_ghost_particles ⟨[(5, 5)], [(0, 0)], [1], [1], [0], [1]⟩ 1
        (0, 0) (10, 10)).rows =
      ghostsSpec (PState.rows ⟨[(5, 5)], [(0, 0)], [1], [1], [0], [1]⟩) 1 (0, 0) (10, 10) ∧
    generate_ghost_particles ⟨[(5, 5)], [(0, 0)], [1], [1], [0], [1]⟩ 1 (0, 0) (10, 10) =
      ⟨[(5, 5)], [(0, 0)], [1], [1], [0], [1]⟩ := by
  have hwf : (PState.WF ⟨[(5, 5)], [(0, 0)], [1], [1], [0], [1]⟩) := by
    unfold PState.WF
    norm_num
  obtain ⟨hrows, hid⟩ := generate_ghost_particles_spec
    ⟨[(5, 5)], [(0, 0)], [1], [1], [0], [1]⟩ 1 (0, 0) (10, 10) hwf
  refine ⟨hrows, hid ?_⟩
  intro p hp
  simp only [List.mem_singleton] at hp
  subst hp
  norm_num

/-! ## neighbor_search.py -/

/-- `get_cell_id` from neighbor_search.py: truncate `(pos - domain_min)/grid_size`
per axis, clamp each index into `[0, n_cells_axis - 1]`, flatten as
`ix + iy * n_cells_x`. -/
def get_cell_id (p dmin : Vec2) (gs : ℝ) (ncx ncy : ℤ) : ℤ :=
  max 0 (min (pyInt ((p.1 - dmin.1) / gs)) (ncx - 1)) +
    max 0 (min (pyInt ((p.2 - dmin.2) / gs)) (ncy - 1)) * ncx

/-- Cells per axis in `build_grid`: `int(np.ceil((hi - lo)/gs)) + 1`.
`np.ceil` yields the integer-valued float `⌈x⌉` and `int` of an
integer-valued float is itself, so this is `⌈(hi - lo)/gs⌉ + 1`. -/
def n_cells_axis (lo hi : ℝ) (gs : ℝ) : ℤ := ⌈(hi - lo) / gs⌉ + 1

/-- The per-particle cell ids (`cell_ids` array in `build_grid`). -/
def cellIds (positions : List Vec2) (dmin : Vec2) (gs : ℝ) (ncx ncy : ℤ) : List ℤ :=
  positions.map fun p => get_cell_id p dmin gs ncx ncy

/-- The bucket of cell `c`: indices whose cell id is `c`, in ascending order. -/
def gridBucket (ids : List ℤ) (c : ℕ) : List ℕ :=
  (List.range ids.length).filter fun i => decide (ids.getD i 0 = (c : ℤ))

/-- `np.argsort(cell_ids)`: the particle indices grouped by cell id.  Ties of
the (unstable) quicksort argsort are modelled in ascending-index order; every
downstream consumer only reads whole buckets, for which any tie order gives
the same result. -/
def gridSorted (ids : List ℤ) (nCells : ℕ) : List ℕ :=
  (List.range nCells).flatMap fun c => gridBucket ids c

/-- `cell_offsets`: zero followed by the cumulative sums of the per-cell
counts (`np.bincount` then `np.cumsum`). -/
def gridOffsets (ids : List ℤ) (nCells : ℕ) : List ℕ :=
  (List.range (nCells + 1)).map fun k => ∑ c ∈ Finset.range k, (gridBucket ids c).length

/-- `build_grid` from neighbor_search.py. -/
def build_grid (positions : List Vec2) (dmin dmax : Vec2) (gs : ℝ) :
    ℤ × ℤ × List ℕ × List ℕ :=
  (n_cells_axis dmin.1 dmax.1 gs, n_cells_axis dmin.2 dmax.2 gs,
   gridOffsets (cellIds positions dmin gs (n_cells_axis dmin.1 dmax.1 gs)
      (n_cells_axis dmin.2 dmax.2 gs))
     ((n_cells_axis dmin.1 dmax.1 gs * n_cells_axis dmin.2 dmax.2 gs).toNat),
   gridSorted (cellIds positions dmin gs (n_cells_axis dmin.1 dmax.1 gs)
      (n_cells_axis dmin.2 dmax.2 gs))
     ((n_cells_axis dmin.1 dmax.1 gs * n_cells_axis dmin.2 dmax.2 gs).toNat))

lemma n_cells_axis_pos {lo hi gs : ℝ} (hgs : 0 < gs) (hle : lo ≤ hi) :
    1 ≤ n_cells_axis lo hi gs := by
  unfold n_cells_axis
  have : (0:ℝ) ≤ (hi - lo) / gs := div_nonneg (by linarith) hgs.le
  have := Int.ceil_nonneg this
  omega

lemma get_cell_id_range (p dmin : Vec2) (gs : ℝ) {ncx ncy : ℤ}
    (hx : 1 ≤ ncx) (hy : 1 ≤ ncy) :
    0 ≤ get_cell_id p dmin gs ncx ncy ∧ get_cell_id p dmin gs ncx ncy < ncx * ncy := by
  unfold get_cell_id
  set a := pyInt ((p.1 - dmin.1) / gs)
  set b := pyInt ((p.2 - dmin.2) / gs)
  have hax : 0 ≤ max 0 (min a (ncx - 1)) := le_max_left _ _
  have hax' : max 0 (min a (ncx - 1)) ≤ ncx - 1 := by
    have : min a (ncx - 1) ≤ ncx - 1 := min_le_right _ _
    omega
  have hby : 0 ≤ max 0 (min b (ncy - 1)) := le_max_left _ _
  have hby' : max 0 (min b (ncy - 1)) ≤ ncy - 1 := by
    have : min b (ncy - 1) ≤ ncy - 1 := min_le_right _ _
    omega
  constructor
  · have : 0 ≤ max 0 (min b (ncy - 1)) * ncx := mul_nonneg hby (by omega)
    omega
  · have h1 : max 0 (min b (ncy - 1)) * ncx ≤ (ncy - 1) * ncx :=
      mul_le_mul_of_nonneg_right hby' (by omega)
    nlinarith

/-- C8: the grid is a partition.  The sorted-index array is a permutation of
the particle indices, each index lies in exactly the bucket of its cell id,
`cell_offsets` has length `n_cells + 1` and its last entry is the particle
count, and the (clamped) cell id of every position — on, inside, or outside
the nominal boundary — is in range. -/
theorem build_grid_partition (positions : List Vec2) (dmin dmax : Vec2) (gs : ℝ)
    (hgs : 0 < gs) (hx : dmin.1 ≤ dmax.1) (hy : dmin.2 ≤ dmax.2) :
    build_grid positions dmin dmax gs =
      (n_cells_axis dmin.1 dmax.1 gs, n_cells_axis dmin.2 dmax.2 gs,
       gridOffsets (cellIds positions dmin gs (n_cells_axis dmin.1 dmax.1 gs)
          (n_cells_axis dmin.2 dmax.2 gs))
         ((n_cells_axis dmin.1 dmax.1 gs * n_cells_axis dmin.2 dmax.2 gs).toNat),
       gridSorted (cellIds positions dmin gs (n_cells_axis dmin.1 dmax.1 gs)
          (n_cells_axis dmin.2 dmax.2 gs))
         ((n_cells_axis dmin.1 dmax.1 gs * n_cells_axis dmin.2 dmax.2 gs).toNat)) ∧
    (gridSorted (cellIds positions dmin gs (n_cells_axis dmin.1 dmax.1 gs)
          (n_cells_axis dmin.2 dmax.2 gs))
        ((n_cells_axis dmin.1 dmax.1 gs * n_cells_axis dmin.2 dmax.2 gs).toNat)).Perm
      (List.range positions.length) ∧
    (gridOffsets (cellIds positions dmin gs (n_cells_axis dmin.1 dmax.1 gs)
          (n_cells_axis dmin.2 dmax.2 gs))
        ((n_cells_axis dmin.1 dmax.1 gs * n_cells_axis dmin.2 dmax.2 gs).toNat)).length =
      (n_cells_axis dmin.1 dmax.1 gs * n_cells_axis dmin.2 dmax.2 gs).toNat + 1 ∧
    (gridOffsets (cellIds positions dmin gs (n_cells_axis dmin.1 dmax.1 gs)
          (n_cells_axis dmin.2 dmax.2 gs))
        ((n_cells_axis dmin.1 dmax.1 gs * n_cells_axis dmin.2 dmax.2 gs).toNat)).getD
      ((n_cells_axis dmin.1 dmax.1 gs * n_cells_axis dmin.2 dmax.2 gs).toNat) 0 =
      positions.length ∧
    (∀ p : Vec2, 0 ≤ get_cell_id p dmin gs (n_cells_axis dmin.1 dmax.1 gs)
        (n_cells_axis dmin.2 dmax.2 gs) ∧
      get_cell_id p dmin gs (n_cells_axis dmin.1 dmax.1 gs) (n_cells_axis dmin.2 dmax.2 gs) <
        n_cells_axis dmin.1 dmax.1 gs * n_cells_axis dmin.2 dmax.2 gs) ∧
    (∀ i < positions.length, ∀ c : ℕ,
      (i ∈ gridBucket (cellIds positions dmin gs (n_cells_axis dmin.1 dmax.1 gs)
          (n_cells_axis dmin.2 dmax.2 gs)) c ↔
        (cellIds positions dmin gs (n_cells_axis dmin.1 dmax.1 gs)
          (n_cells_axis dmin.2 dmax.2 gs)).getD i 0 = (c : ℤ))) := by
  have hncx := n_cells_axis_pos hgs hx
  have hncy := n_cells_axis_pos hgs hy
  set ncx := n_cells_axis dmin.1 dmax.1 gs
  set ncy := n_cells_axis dmin.2 dmax.2 gs
  set ids := cellIds positions dmin gs ncx ncy with hids
  set nC := (ncx * ncy).toNat with hnC
  have hlen : ids.length = positions.length := by simp [hids, cellIds]
  have hidrange : ∀ i < positions.length, 0 ≤ ids.getD i 0 ∧ ids.getD i 0 < (nC : ℤ) := by
    intro i hi
    have : ids.getD i 0 = get_cell_id (positions.getD i (0,0)) dmin gs ncx ncy := by
      rw [hids]
      unfold cellIds
      exact getD_map_of_lt positions _ hi (0,0) 0
    rw [this]
    have h := get_cell_id_range (positions.getD i (0,0)) dmin gs hncx hncy
    refine ⟨h.1, ?_⟩
    have : ((ncx * ncy).toNat : ℤ) = ncx * ncy := Int.toNat_of_nonneg (by positivity)
    rw [hnC, this]
    exact h.2
  have range_map_sum : ∀ (n : ℕ) (f : ℕ → ℕ),
      ((List.range n).map f).sum = ∑ c ∈ Finset.range n, f c := by
    intro n f
    induction n with
    | zero => simp
    | succ m ih =>
      rw [List.range_succ, List.map_append, List.sum_append, Finset.sum_range_succ, ih]
      simp
  have hcount : ∀ j : ℕ, ∀ c : ℕ, List.count j (gridBucket ids c) =
      if j < positions.length ∧ ids.getD j 0 = (c:ℤ) then 1 else 0 := by
    intro j c
    unfold gridBucket
    by_cases hc : j < positions.length ∧ ids.getD j 0 = (c:ℤ)
    · rw [if_pos hc]
      rw [List.count_filter (by simpa using hc.2)]
      exact List.count_eq_one_of_mem (List.nodup_range _)
        (List.mem_range.mpr (hlen ▸ hc.1))
    · rw [if_neg hc]
      refine List.count_eq_zero_of_not_mem fun hmem => hc ?_
      rw [List.mem_filter] at hmem
      exact ⟨hlen ▸ List.mem_range.mp hmem.1, by simpa using hmem.2⟩
  have hperm : (gridSorted ids nC).Perm (List.range positions.length) := by
    rw [List.perm_iff_count]
    intro j
    unfold gridSorted
    rw [List.count_flatMap]
    have : (List.map (List.count j ∘ fun c => gridBucket ids c) (List.range nC)).sum =
        ∑ c ∈ Finset.range nC, List.count j (gridBucket ids c) :=
      range_map_sum nC _
    rw [this]
    by_cases hj : j < positions.length
    · obtain ⟨h0, h1⟩ := hidrange j hj
      have hform : ∀ c ∈ Finset.range nC,
          List.count j (gridBucket ids c) = if c = (ids.getD j 0).toNat then 1 else 0 := by
        intro c _
        rw [hcount j c]
        by_cases he : c = (ids.getD j 0).toNat
        · subst he
          rw [if_pos ⟨hj, by omega⟩, if_pos rfl]
        · rw [if_neg fun hcontra => he (by omega), if_neg he]
      rw [Finset.sum_congr rfl hform, Finset.sum_ite_eq' (Finset.range nC) _ (fun _ => 1),
        if_pos (Finset.mem_range.mpr (by omega))]
      exact (List.count_eq_one_of_mem (List.nodup_range _) (List.mem_range.mpr hj)).symm
    · have : ∀ c ∈ Finset.range nC, List.count j (gridBucket ids c) = 0 := by
        intro c _
        rw [hcount j c, if_neg (fun hcontra => hj hcontra.1)]
      rw [Finset.sum_congr rfl this, Finset.sum_const, smul_eq_mul, mul_zero]
      exact (List.count_eq_zero_of_not_mem fun hmem => hj (List.mem_range.mp hmem)).symm
  refine ⟨rfl, hperm, ?_, ?_, fun p => get_cell_id_range p dmin gs hncx hncy, ?_⟩
  · unfold gridOffsets
    simp
  · unfold gridOffsets
    rw [getD_map_of_lt (List.range (nC + 1)) _ (by simp) 0]
    have : (List.range (nC + 1)).getD nC 0 = nC := by
      rw [List.getD_eq_getElem _ _ (by simp)]
      simp
    rw [this]
    have hlensorted : (gridSorted ids nC).length = positions.length := hperm.length_eq.trans
      (List.length_range _)
    calc ∑ c ∈ Finset.range nC, (gridBucket ids c).length
        = ((List.range nC).map fun c => (gridBucket ids c).length).sum :=
          (range_map_sum nC _).symm
      _ = (gridSorted ids nC).length := by
          unfold gridSorted
          rw [List.length_flatMap]
          rfl
      _ = positions.length := hlensorted
  · intro i hi c
    unfold gridBucket
    rw [List.mem_filter]
    constructor
    · intro ⟨_, hdec⟩
      simpa using hdec
    · intro heq
      exact ⟨List.mem_range.mpr (hlen ▸ hi), by simpa using heq⟩

/-- Witness for C8 at a unit box with one interior particle. -/
theorem build_grid_partition_witness :
    (0:ℝ) < 1 ∧ (0:ℝ) ≤ 1 ∧
    (gridSorted (cellIds [((0.5:ℝ), (0.5:ℝ))] (0, 0) 1 (n_cells_axis 0 1 1)
        (n_cells_axis 0 1 1)) ((n_cells_axis 0 1 1 * n_cells_axis 0 1 1).toNat)).Perm
      (List.range 1) :=
  ⟨one_pos, zero_le_one,
    (build_grid_partition [((0.5:ℝ), (0.5:ℝ))] (0, 0) (1, 1) 1 one_pos
      (by norm_num) (by norm_num)).2.1⟩

/-! ## physics.py: constants and density -/

def EOS_GAMMA : ℕ := 7
def SOUND_SPEED : ℝ := 30.0
def MIN_DENSITY : ℝ := 0.1
def VISCOSITY_EPSILON : ℝ := 0.01
def KERNEL_CUTOFF_SQ_FACTOR : ℝ := 4.0
def MIN_DIST_SQ : ℝ := 1e-18

/-- The inner loop of `compute_density`: the contribution of one cell's
bucket (a slice of `sorted_indices` delimited by `cell_offsets`) to the
density at query position `q`. -/
def cellSliceDensity (positions : List Vec2) (masses : List ℝ) (h : ℝ)
    (offs sorted : List ℕ) (cid : ℕ) (q : Vec2) : ℝ :=
  (((sorted.drop (offs.getD cid 0)).take (offs.getD (cid + 1) 0 - offs.getD cid 0)).map
    fun j =>
      if (q.1 - (positions.getD j (0, 0)).1) ^ 2 + (q.2 - (positions.getD j (0, 0)).2) ^ 2 <
          KERNEL_CUTOFF_SQ_FACTOR * h ^ 2 then
        masses.getD j 0 *
          cubic_spline_kernel
            (Real.sqrt ((q.1 - (positions.getD j (0, 0)).1) ^ 2 +
              (q.2 - (positions.getD j (0, 0)).2) ^ 2)) h
      else 0).sum

/-- The density `compute_density` assigns to a particle at `q`: the query
cell is the truncated (unclamped) cell of `q`, and the 3x3 block of cells
around it is visited, skipping out-of-range cells. -/
def compute_density_at (positions : List Vec2) (masses : List ℝ) (h : ℝ) (dmin : Vec2)
    (gs : ℝ) (ncx ncy : ℤ) (offs sorted : List ℕ) (q : Vec2) : ℝ :=
  ∑ d ∈ Finset.Icc (-1 : ℤ) 1 ×ˢ Finset.Icc (-1 : ℤ) 1,
    if 0 ≤ pyInt ((q.1 - dmin.1) / gs) + d.1 ∧ pyInt ((q.1 - dmin.1) / gs) + d.1 < ncx ∧
        0 ≤ pyInt ((q.2 - dmin.2) / gs) + d.2 ∧ pyInt ((q.2 - dmin.2) / gs) + d.2 < ncy then
      cellSliceDensity positions masses h offs sorted
        ((pyInt ((q.1 - dmin.1) / gs) + d.1 +
          (pyInt ((q.2 - dmin.2) / gs) + d.2) * ncx).toNat) q
    else 0

/-- `compute_density` from physics.py. -/
def compute_density (positions : List Vec2) (masses : List ℝ) (h : ℝ) (dmin : Vec2)
    (gs : ℝ) (ncx ncy : ℤ) (offs sorted : List ℕ) : List ℝ :=
  positions.map (compute_density_at positions masses h dmin gs ncx ncy offs sorted)

/-- Reference all-pairs density from the specification: sum
`m_j * W(|q - pos_j|, h)` over every augmented particle `j` (including the
particle itself) whose squared distance is strictly below `(2h)^2`. -/
def refDensity (positions : List Vec2) (masses : List ℝ) (h : ℝ) (q : Vec2) : ℝ :=
  ∑ j ∈ Finset.range positions.length,
    if (q.1 - (positions.getD j (0, 0)).1) ^ 2 + (q.2 - (positions.getD j (0, 0)).2) ^ 2 <
        KERNEL_CUTOFF_SQ_FACTOR * h ^ 2 then
      masses.getD j 0 *
        cubic_spline_kernel
          (Real.sqrt ((q.1 - (positions.getD j (0, 0)).1) ^ 2 +
            (q.2 - (positions.getD j (0, 0)).2) ^ 2)) h
    else 0

/-! Support lemmas for the grid-coverage argument. -/

lemma pyInt_mono : Monotone pyInt := by
  intro x y hxy
  unfold pyInt
  by_cases hx : 0 ≤ x
  · rw [if_pos hx, if_pos (le_trans hx hxy)]
    exact Int.floor_le_floor hxy
  · rw [if_neg hx]
    by_cases hy : 0 ≤ y
    · rw [if_pos hy]
      have h1 : ⌈x⌉ ≤ 0 := Int.ceil_le.mpr (by exact_mod_cast le_of_not_le hx)
      have h2 : (0:ℤ) ≤ ⌊y⌋ := Int.le_floor.mpr (by exact_mod_cast hy)
      omega
    · rw [if_neg hy]
      exact Int.ceil_le_ceil hxy

lemma pyInt_add_one_le (x : ℝ) : pyInt (x + 1) ≤ pyInt x + 1 := by
  unfold pyInt
  by_cases hx : 0 ≤ x
  · rw [if_pos hx, if_pos (by linarith)]
    rw [show x + 1 = x + (1:ℤ) by norm_num, Int.floor_add_int]
  · rw [if_neg hx]
    by_cases hx1 : 0 ≤ x + 1
    · rw [if_pos hx1]
      have h1 : ⌊x + 1⌋ ≤ 0 := by
        have hlt : ⌊x + 1⌋ < 1 := Int.floor_lt.mpr (by push_cast; linarith)
        omega
      have h2 : (-1:ℤ) ≤ ⌈x⌉ := by
        have hm1 : (-1:ℝ) ≤ x := by linarith
        have hcc := Int.ceil_le_ceil hm1
        have hc : ⌈(-1:ℝ)⌉ = -1 := by
          rw [show ((-1:ℝ)) = ((-1 : ℤ) : ℝ) by norm_num, Int.ceil_intCast]
        omega
      omega
    · rw [if_neg hx1]
      rw [show x + 1 = x + (1:ℤ) by norm_num, Int.ceil_add_int]

/-- If two reals are within distance 1, their truncations differ by at most 1. -/
lemma pyInt_close {u t : ℝ} (h1 : u - t < 1) (h2 : t - u < 1) :
    pyInt t - 1 ≤ pyInt u ∧ pyInt u ≤ pyInt t + 1 := by
  constructor
  · have := pyInt_mono (show t ≤ u + 1 by linarith)
    have := pyInt_add_one_le u
    omega
  · have := pyInt_mono (show u ≤ t + 1 by linarith)
    have := pyInt_add_one_le t
    omega

lemma filter_range_map_sum (n : ℕ) (p : ℕ → Bool) (f : ℕ → ℝ) :
    (((List.range n).filter p).map f).sum = ∑ j ∈ Finset.range n, if p j then f j else 0 := by
  induction n with
  | zero => simp
  | succ m ih =>
    rw [List.range_succ, List.filter_append, List.map_append, List.sum_append,
      Finset.sum_range_succ, ih]
    by_cases hp : p m
    · simp [hp]
    · simp [hp]

lemma range_map_sum_nat (n : ℕ) (f : ℕ → ℕ) :
    ((List.range n).map f).sum = ∑ c ∈ Finset.range n, f c := by
  induction n with
  | zero => simp
  | succ m ih =>
    rw [List.range_succ, List.map_append, List.sum_append, Finset.sum_range_succ, ih]
    simp

lemma gridOffsets_getD (ids : List ℤ) (nC : ℕ) (c : ℕ) (hc : c < nC + 1) :
    (gridOffsets ids nC).getD c 0 = ∑ c' ∈ Finset.range c, (gridBucket ids c').length := by
  unfold gridOffsets
  rw [getD_map_of_lt (List.range (nC + 1)) _ (by simpa using hc) 0]
  congr 1
  rw [List.getD_eq_getElem _ _ (by simpa using hc)]
  simp

/-- The slice of `sorted_indices` delimited by consecutive `cell_offsets`
entries is exactly the bucket of that cell. -/
lemma slice_eq_bucket (ids : List ℤ) (nC : ℕ) (c : ℕ) (hc : c < nC) :
    ((gridSorted ids nC).drop ((gridOffsets ids nC).getD c 0)).take
      ((gridOffsets ids nC).getD (c + 1) 0 - (gridOffsets ids nC).getD c 0) =
    gridBucket ids c := by
  have hoc := gridOffsets_getD ids nC c (by omega)
  have hoc1 := gridOffsets_getD ids nC (c + 1) (by omega)
  have hdiff : (gridOffsets ids nC).getD (c + 1) 0 - (gridOffsets ids nC).getD c 0 =
      (gridBucket ids c).length := by
    rw [hoc, hoc1, Finset.sum_range_succ]
    omega
  have hsplit : gridSorted ids nC =
      ((List.range c).flatMap fun c' => gridBucket ids c') ++ gridBucket ids c ++
        (((List.range (nC - (c + 1))).map (c + 1 + ·)).flatMap fun c' => gridBucket ids c') := by
    unfold gridSorted
    have : nC = (c + 1) + (nC - (c + 1)) := by omega
    rw [this, List.range_add, List.flatMap_append, List.range_succ, List.flatMap_append]
    simp [List.append_assoc]
  have hlenA : ((List.range c).flatMap fun c' => gridBucket ids c').length =
      (gridOffsets ids nC).getD c 0 := by
    rw [List.length_flatMap, hoc]
    exact range_map_sum_nat c _
  rw [hsplit, hdiff, List.append_assoc, ← hlenA, List.drop_left, List.take_left]

/-- Positions within one cell-size margin of the box get an unclamped
truncated cell index already in `[0, n_cells_axis - 1]`. -/
lemma pyInt_cell_range {lo hi gs x : ℝ} (hgs : 0 < gs) (_hle : lo ≤ hi)
    (hlow : lo - gs < x) (hupp : x < hi + gs) :
    0 ≤ pyInt ((x - lo) / gs) ∧ pyInt ((x - lo) / gs) ≤ n_cells_axis lo hi gs - 1 := by
  set t := (x - lo) / gs with ht
  have htm1 : (-1 : ℝ) < t := by
    rw [ht]
    rw [lt_div_iff hgs]
    linarith
  have htub : t < (hi - lo) / gs + 1 := by
    rw [ht]
    rw [div_add' _ _ _ hgs.ne', div_lt_div_iff hgs hgs]
    nlinarith
  have hceil : (hi - lo) / gs ≤ (⌈(hi - lo) / gs⌉ : ℝ) := Int.le_ceil _
  have hceil0 : 0 ≤ ⌈(hi - lo) / gs⌉ := Int.ceil_nonneg (div_nonneg (by linarith) hgs.le)
  unfold n_cells_axis pyInt
  by_cases h0 : 0 ≤ t
  · rw [if_pos h0]
    have hfl : ⌊t⌋ < ⌈(hi - lo) / gs⌉ + 1 := by
      rw [Int.floor_lt]
      push_cast
      linarith
    exact ⟨Int.floor_nonneg.mpr h0, by omega⟩
  · rw [if_neg h0]
    have hcl : ⌈t⌉ ≤ 0 := Int.ceil_le.mpr (by push_cast; linarith [le_of_not_le h0])
    have hcg : -1 < ⌈t⌉ := by
      have : (-1 : ℤ) < ⌈t⌉ ↔ ((-1 : ℤ) : ℝ) < t := Int.lt_ceil
      exact this.mpr (by push_cast; linarith)
    exact ⟨by omega, by omega⟩

/-- Under the margin bounds, `get_cell_id`'s clamping is the identity. -/
lemma get_cell_id_eq_unclamped {dmin dmax : Vec2} {gs : ℝ} {p : Vec2}
    (hgs : 0 < gs) (hx : dmin.1 ≤ dmax.1) (hy : dmin.2 ≤ dmax.2)
    (hm1 : dmin.1 - gs < p.1) (hm2 : p.1 < dmax.1 + gs)
    (hm3 : dmin.2 - gs < p.2) (hm4 : p.2 < dmax.2 + gs) :
    get_cell_id p dmin gs (n_cells_axis dmin.1 dmax.1 gs) (n_cells_axis dmin.2 dmax.2 gs) =
      pyInt ((p.1 - dmin.1) / gs) +
        pyInt ((p.2 - dmin.2) / gs) * n_cells_axis dmin.1 dmax.1 gs := by
  obtain ⟨ha1, ha2⟩ := pyInt_cell_range hgs hx hm1 hm2
  obtain ⟨hb1, hb2⟩ := pyInt_cell_range hgs hy hm3 hm4
  unfold get_cell_id
  congr 1
  · omega
  · congr 1
    omega

/-- Uniqueness of the `a + b * m` cell-id decomposition with `0 ≤ a, a' < m`. -/
lemma add_mul_inj {a b a' b' m : ℤ} (hm : 1 ≤ m) (ha0 : 0 ≤ a) (ham : a < m)
    (ha0' : 0 ≤ a') (ham' : a' < m) (heq : a + b * m = a' + b' * m) :
    a = a' ∧ b = b' := by
  by_cases hbb : b = b'
  · subst hbb
    exact ⟨by linarith, rfl⟩
  · exfalso
    have hk : a - a' = (b' - b) * m := by ring_nf; linarith [heq]
    have : b' - b ≥ 1 ∨ b' - b ≤ -1 := by omega
    rcases this with hge | hle
    · nlinarith
    · nlinarith

set_option maxHeartbeats 2000000 in
/- Worker form of the C3 statement; also reused by concrete pipeline
evaluations further below. -/
lemma compute_density_grid_eq_allpairs_aux
    (positions : List Vec2) (masses : List ℝ) (h : ℝ) (dmin dmax : Vec2)
    (hh : 0 < h) (hx : dmin.1 ≤ dmax.1) (hy : dmin.2 ≤ dmax.2)
    (hin : ∀ p ∈ positions, dmin.1 - 2 * h < p.1 ∧ p.1 < dmax.1 + 2 * h ∧
      dmin.2 - 2 * h < p.2 ∧ p.2 < dmax.2 + 2 * h) :
    compute_density positions masses h dmin (2 * h)
        (n_cells_axis dmin.1 dmax.1 (2 * h)) (n_cells_axis dmin.2 dmax.2 (2 * h))
        (gridOffsets (cellIds positions dmin (2 * h) (n_cells_axis dmin.1 dmax.1 (2 * h))
            (n_cells_axis dmin.2 dmax.2 (2 * h)))
          ((n_cells_axis dmin.1 dmax.1 (2 * h) * n_cells_axis dmin.2 dmax.2 (2 * h)).toNat))
        (gridSorted (cellIds positions dmin (2 * h) (n_cells_axis dmin.1 dmax.1 (2 * h))
            (n_cells_axis dmin.2 dmax.2 (2 * h)))
          ((n_cells_axis dmin.1 dmax.1 (2 * h) * n_cells_axis dmin.2 dmax.2 (2 * h)).toNat)) =
      positions.map (refDensity positions masses h) ∧
    (∀ s : PState, (∀ p ∈ s.pos, dmin.1 ≤ p.1 ∧ p.1 ≤ dmax.1 ∧ dmin.2 ≤ p.2 ∧ p.2 ≤ dmax.2) →
      ∀ p ∈ (generate_ghost_particles s h dmin dmax).pos,
        dmin.1 - 2 * h < p.1 ∧ p.1 < dmax.1 + 2 * h ∧
          dmin.2 - 2 * h < p.2 ∧ p.2 < dmax.2 + 2 * h) := by
  have hgs : (0:ℝ) < 2 * h := by linarith
  set gs : ℝ := 2 * h with hgsdef
  set ncx := n_cells_axis dmin.1 dmax.1 gs with hncxdef
  set ncy := n_cells_axis dmin.2 dmax.2 gs with hncydef
  have hncx1 : 1 ≤ ncx := n_cells_axis_pos hgs hx
  have hncy1 : 1 ≤ ncy := n_cells_axis_pos hgs hy
  set ids := cellIds positions dmin gs ncx ncy with hidsdef
  set nC := (ncx * ncy).toNat with hnCdef
  have hidlen : ids.length = positions.length := by simp [hidsdef, cellIds]
  have hnCcast : (nC : ℤ) = ncx * ncy := Int.toNat_of_nonneg (by positivity)
  -- cell coordinates of a position under the margin hypothesis
  have hcellx : ∀ p : Vec2, dmin.1 - gs < p.1 → p.1 < dmax.1 + gs →
      0 ≤ pyInt ((p.1 - dmin.1) / gs) ∧ pyInt ((p.1 - dmin.1) / gs) ≤ ncx - 1 :=
    fun p hm1 hm2 => pyInt_cell_range hgs hx hm1 hm2
  have hcelly : ∀ p : Vec2, dmin.2 - gs < p.2 → p.2 < dmax.2 + gs →
      0 ≤ pyInt ((p.2 - dmin.2) / gs) ∧ pyInt ((p.2 - dmin.2) / gs) ≤ ncy - 1 :=
    fun p hm3 hm4 => pyInt_cell_range hgs hy hm3 hm4
  have hidval : ∀ j < positions.length, ids.getD j 0 =
      pyInt (((positions.getD j (0,0)).1 - dmin.1) / gs) +
        pyInt (((positions.getD j (0,0)).2 - dmin.2) / gs) * ncx := by
    intro j hj
    have hmem : positions.getD j (0,0) ∈ positions := by
      rw [List.getD_eq_getElem _ _ hj]
      exact List.getElem_mem _
    obtain ⟨hm1, hm2, hm3, hm4⟩ := hin _ hmem
    have : ids.getD j 0 = get_cell_id (positions.getD j (0,0)) dmin gs ncx ncy := by
      rw [hidsdef]
      unfold cellIds
      exact getD_map_of_lt positions _ hj (0,0) 0
    rw [this, hncxdef, hncydef]
    exact get_cell_id_eq_unclamped hgs hx hy hm1 hm2 hm3 hm4
  constructor
  · unfold compute_density
    refine List.map_congr_left fun q hq => ?_
    obtain ⟨hq1, hq2, hq3, hq4⟩ := hin q hq
    obtain ⟨hqx0, hqx1⟩ := hcellx q hq1 hq2
    obtain ⟨hqy0, hqy1⟩ := hcelly q hq3 hq4
    set ix := pyInt ((q.1 - dmin.1) / gs) with hixdef
    set iy := pyInt ((q.2 - dmin.2) / gs) with hiydef
    -- the contribution of particle j at the query point
    set term : ℕ → ℝ := fun j =>
      if (q.1 - (positions.getD j (0, 0)).1) ^ 2 + (q.2 - (positions.getD j (0, 0)).2) ^ 2 <
          KERNEL_CUTOFF_SQ_FACTOR * h ^ 2 then
        masses.getD j 0 *
          cubic_spline_kernel
            (Real.sqrt ((q.1 - (positions.getD j (0, 0)).1) ^ 2 +
              (q.2 - (positions.getD j (0, 0)).2) ^ 2)) h
      else 0 with htermdef
    have hslice : ∀ d : ℤ × ℤ,
        0 ≤ ix + d.1 → ix + d.1 < ncx → 0 ≤ iy + d.2 → iy + d.2 < ncy →
        cellSliceDensity positions masses h (gridOffsets ids nC) (gridSorted ids nC)
            ((ix + d.1 + (iy + d.2) * ncx).toNat) q =
          ∑ j ∈ Finset.range positions.length,
            if ids.getD j 0 = ((ix + d.1 + (iy + d.2) * ncx).toNat : ℤ) then term j else 0 := by
      intro d hb1 hb2 hb3 hb4
      have hcidlt : (ix + d.1 + (iy + d.2) * ncx).toNat < nC := by
        have hlt : ix + d.1 + (iy + d.2) * ncx < ncx * ncy := by nlinarith
        have hge : 0 ≤ ix + d.1 + (iy + d.2) * ncx := by positivity
        omega
      unfold cellSliceDensity
      rw [slice_eq_bucket ids nC _ hcidlt]
      unfold gridBucket
      rw [hidlen, filter_range_map_sum]
      refine Finset.sum_congr rfl fun j _ => ?_
      by_cases hc : ids.getD j 0 = ((ix + d.1 + (iy + d.2) * ncx).toNat : ℤ)
      · rw [if_pos (by simpa using hc), if_pos hc]
      · rw [if_neg (by simpa using hc), if_neg hc]
    unfold compute_density_at
    rw [← hixdef, ← hiydef]
    have hstep1 :
        (∑ d ∈ Finset.Icc (-1 : ℤ) 1 ×ˢ Finset.Icc (-1 : ℤ) 1,
          if 0 ≤ ix + d.1 ∧ ix + d.1 < ncx ∧ 0 ≤ iy + d.2 ∧ iy + d.2 < ncy then
            cellSliceDensity positions masses h (gridOffsets ids nC) (gridSorted ids nC)
              ((ix + d.1 + (iy + d.2) * ncx).toNat) q
          else 0) =
        ∑ d ∈ Finset.Icc (-1 : ℤ) 1 ×ˢ Finset.Icc (-1 : ℤ) 1,
          ∑ j ∈ Finset.range positions.length,
            if (0 ≤ ix + d.1 ∧ ix + d.1 < ncx ∧ 0 ≤ iy + d.2 ∧ iy + d.2 < ncy) ∧
                ids.getD j 0 = ix + d.1 + (iy + d.2) * ncx then
              term j
            else 0 := by
      refine Finset.sum_congr rfl fun d _ => ?_
      by_cases hb : 0 ≤ ix + d.1 ∧ ix + d.1 < ncx ∧ 0 ≤ iy + d.2 ∧ iy + d.2 < ncy
      · rw [if_pos hb, hslice d hb.1 hb.2.1 hb.2.2.1 hb.2.2.2]
        refine Finset.sum_congr rfl fun j _ => ?_
        have hcast : ((ix + d.1 + (iy + d.2) * ncx).toNat : ℤ) =
            ix + d.1 + (iy + d.2) * ncx := by
          have : 0 ≤ ix + d.1 + (iy + d.2) * ncx := by
            have := mul_nonneg hb.2.2.1 (by omega : (0:ℤ) ≤ ncx)
            omega
          omega
        rw [hcast]
        by_cases hc : ids.getD j 0 = ix + d.1 + (iy + d.2) * ncx
        · rw [if_pos hc, if_pos ⟨hb, hc⟩]
        · rw [if_neg hc, if_neg (fun hand => hc hand.2)]
      · rw [if_neg hb]
        symm
        refine Finset.sum_eq_zero fun j _ => ?_
        rw [if_neg fun hand => hb hand.1]
    rw [hstep1, Finset.sum_comm]
    have hrefeq : refDensity positions masses h q =
        ∑ j ∈ Finset.range positions.length, term j := by
      rw [htermdef]
      rfl
    rw [hrefeq]
    refine Finset.sum_congr rfl fun j hj => ?_
    have hjlt : j < positions.length := Finset.mem_range.mp hj
    by_cases hcut : (q.1 - (positions.getD j (0, 0)).1) ^ 2 +
        (q.2 - (positions.getD j (0, 0)).2) ^ 2 < KERNEL_CUTOFF_SQ_FACTOR * h ^ 2
    · -- within cutoff: exactly one visited cell holds particle j
      have hjmem : positions.getD j (0,0) ∈ positions := by
        rw [List.getD_eq_getElem _ _ hjlt]
        exact List.getElem_mem _
      obtain ⟨hp1, hp2, hp3, hp4⟩ := hin _ hjmem
      obtain ⟨hjx0, hjx1⟩ := hcellx _ hp1 hp2
      obtain ⟨hjy0, hjy1⟩ := hcelly _ hp3 hp4
      set jx := pyInt (((positions.getD j (0,0)).1 - dmin.1) / gs) with hjxdef
      set jy := pyInt (((positions.getD j (0,0)).2 - dmin.2) / gs) with hjydef
      have hidj : ids.getD j 0 = jx + jy * ncx := hidval j hjlt
      have hcut4 : (q.1 - (positions.getD j (0, 0)).1) ^ 2 +
          (q.2 - (positions.getD j (0, 0)).2) ^ 2 < gs ^ 2 := by
        have : KERNEL_CUTOFF_SQ_FACTOR * h ^ 2 = gs ^ 2 := by
          rw [hgsdef]
          unfold KERNEL_CUTOFF_SQ_FACTOR
          ring
        linarith [hcut, this.symm.le]
      have hdx : -gs < q.1 - (positions.getD j (0, 0)).1 ∧
          q.1 - (positions.getD j (0, 0)).1 < gs := by
        constructor
        · by_contra hcon
          push_neg at hcon
          nlinarith [sq_nonneg (q.2 - (positions.getD j (0, 0)).2)]
        · by_contra hcon
          push_neg at hcon
          nlinarith [sq_nonneg (q.2 - (positions.getD j (0, 0)).2)]
      have hdy : -gs < q.2 - (positions.getD j (0, 0)).2 ∧
          q.2 - (positions.getD j (0, 0)).2 < gs := by
        constructor
        · by_contra hcon
          push_neg at hcon
          nlinarith [sq_nonneg (q.1 - (positions.getD j (0, 0)).1)]
        · by_contra hcon
          push_neg at hcon
          nlinarith [sq_nonneg (q.1 - (positions.getD j (0, 0)).1)]
      have hux : (q.1 - dmin.1) / gs - ((positions.getD j (0,0)).1 - dmin.1) / gs < 1 ∧
          ((positions.getD j (0,0)).1 - dmin.1) / gs - (q.1 - dmin.1) / gs < 1 := by
        have he : (q.1 - dmin.1) / gs - ((positions.getD j (0,0)).1 - dmin.1) / gs =
            (q.1 - (positions.getD j (0,0)).1) / gs := by ring
        have he' : ((positions.getD j (0,0)).1 - dmin.1) / gs - (q.1 - dmin.1) / gs =
            ((positions.getD j (0,0)).1 - q.1) / gs := by ring
        constructor
        · rw [he, div_lt_one hgs]
          linarith [hdx.2]
        · rw [he', div_lt_one hgs]
          linarith [hdx.1]
      have huy : (q.2 - dmin.2) / gs - ((positions.getD j (0,0)).2 - dmin.2) / gs < 1 ∧
          ((positions.getD j (0,0)).2 - dmin.2) / gs - (q.2 - dmin.2) / gs < 1 := by
        have he : (q.2 - dmin.2) / gs - ((positions.getD j (0,0)).2 - dmin.2) / gs =
            (q.2 - (positions.getD j (0,0)).2) / gs := by ring
        have he' : ((positions.getD j (0,0)).2 - dmin.2) / gs - (q.2 - dmin.2) / gs =
            ((positions.getD j (0,0)).2 - q.2) / gs := by ring
        constructor
        · rw [he, div_lt_one hgs]
          linarith [hdy.2]
        · rw [he', div_lt_one hgs]
          linarith [hdy.1]
      have hclx := pyInt_close hux.1 hux.2
      have hcly := pyInt_close huy.1 huy.2
      rw [← hixdef] at hclx
      rw [← hiydef] at hcly
      rw [← hjxdef] at hclx
      rw [← hjydef] at hcly
      have hd0mem : (jx - ix, jy - iy) ∈ Finset.Icc (-1 : ℤ) 1 ×ˢ Finset.Icc (-1 : ℤ) 1 := by
        rw [Finset.mem_product, Finset.mem_Icc, Finset.mem_Icc]
        omega
      have hcond0 : (0 ≤ ix + (jx - ix) ∧ ix + (jx - ix) < ncx ∧
          0 ≤ iy + (jy - iy) ∧ iy + (jy - iy) < ncy) ∧
          ids.getD j 0 = ix + (jx - ix) + (iy + (jy - iy)) * ncx := by
        refine ⟨⟨by omega, by omega, by omega, by omega⟩, ?_⟩
        rw [hidj]
        ring
      rw [Finset.sum_eq_single_of_mem (jx - ix, jy - iy) hd0mem ?uniq]
      case uniq =>
        intro d hd hne
        by_cases hcond : (0 ≤ ix + d.1 ∧ ix + d.1 < ncx ∧ 0 ≤ iy + d.2 ∧ iy + d.2 < ncy) ∧
            ids.getD j 0 = ix + d.1 + (iy + d.2) * ncx
        · exfalso
          obtain ⟨⟨hb1, hb2, hb3, hb4⟩, hce⟩ := hcond
          rw [hidj] at hce
          have := @add_mul_inj jx jy (ix + d.1) (iy + d.2) ncx
            hncx1 (by omega) (by omega) hb1 hb2 hce
          apply hne
          have hd1 : d.1 = jx - ix := by omega
          have hd2 : d.2 = jy - iy := by omega
          exact Prod.ext hd1 hd2
        · rw [if_neg hcond]
      rw [if_pos hcond0]
    · -- beyond cutoff: the contribution is zero on both sides
      have hterm0 : term j = 0 := by
        rw [htermdef]
        simp only
        rw [if_neg hcut]
      rw [hterm0]
      refine Finset.sum_eq_zero fun d _ => ?_
      by_cases hcond : (0 ≤ ix + d.1 ∧ ix + d.1 < ncx ∧ 0 ≤ iy + d.2 ∧ iy + d.2 < ncy) ∧
          ids.getD j 0 = ix + d.1 + (iy + d.2) * ncx
      · simp only [if_pos hcond, hterm0]
      · rw [if_neg hcond]
  · -- ghosts of an in-box real set stay within one cell size of the box
    intro s hbox p hp
    have hmargin_box : ∀ r : Vec2, dmin.1 ≤ r.1 ∧ r.1 ≤ dmax.1 ∧ dmin.2 ≤ r.2 ∧ r.2 ≤ dmax.2 →
        dmin.1 - 2 * h < r.1 ∧ r.1 < dmax.1 + 2 * h ∧
          dmin.2 - 2 * h < r.2 ∧ r.2 < dmax.2 + 2 * h := by
      intro r ⟨h1, h2, h3, h4⟩
      refine ⟨by linarith, by linarith, by linarith, by linarith⟩
    have hghost : ∀ (dim : ℕ) (pred : Vec2 → Prop) [DecidablePred pred] (wall : ℝ),
        p ∈ (ghostCase s dim pred wall).pos →
        ∃ p₀ ∈ s.pos, pred p₀ ∧ p = reflectP dim wall p₀ := by
      intro dim pred _ wall hmem
      unfold ghostCase at hmem
      simp only at hmem
      obtain ⟨i, hi, hpe⟩ := List.mem_map.mp hmem
      unfold maskIdx at hi
      rw [List.mem_filter] at hi
      have hilt : i < s.pos.length := List.mem_range.mp hi.1
      have hpred : pred (s.pos.getD i (0,0)) := by simpa using hi.2
      refine ⟨s.pos.getD i (0,0), ?_, hpred, hpe.symm⟩
      rw [List.getD_eq_getElem _ _ hilt]
      exact List.getElem_mem _
    unfold generate_ghost_particles PState.append at hp
    simp only [List.mem_append] at hp
    rcases hp with (((hreal | hb1) | hb2) | hb3) | hb4
    · exact hmargin_box p (hbox p hreal)
    · obtain ⟨p₀, hp₀, hpred, hpe⟩ := hghost 0 _ dmin.1 hb1
      obtain ⟨g1, g2, g3, g4⟩ := hbox p₀ hp₀
      subst hpe
      unfold reflectP
      rw [if_pos rfl]
      simp only
      have hpred' : p₀.1 < dmin.1 + 2.0 * h := hpred
      refine ⟨by linarith, by linarith, by linarith, by linarith⟩
    · obtain ⟨p₀, hp₀, hpred, hpe⟩ := hghost 0 _ dmax.1 hb2
      obtain ⟨g1, g2, g3, g4⟩ := hbox p₀ hp₀
      subst hpe
      unfold reflectP
      rw [if_pos rfl]
      simp only
      have hpred' : p₀.1 > dmax.1 - 2.0 * h := hpred
      refine ⟨by linarith, by linarith, by linarith, by linarith⟩
    · obtain ⟨p₀, hp₀, hpred, hpe⟩ := hghost 1 _ dmin.2 hb3
      obtain ⟨g1, g2, g3, g4⟩ := hbox p₀ hp₀
      subst hpe
      unfold reflectP
      rw [if_neg one_ne_zero]
      simp only
      have hpred' : p₀.2 < dmin.2 + 2.0 * h := hpred
      refine ⟨by linarith, by linarith, by linarith, by linarith⟩
    · obtain ⟨p₀, hp₀, hpred, hpe⟩ := hghost 1 _ dmax.2 hb4
      obtain ⟨g1, g2, g3, g4⟩ := hbox p₀ hp₀
      subst hpe
      unfold reflectP
      rw [if_neg one_ne_zero]
      simp only
      have hpred' : p₀.2 > dmax.2 - 2.0 * h := hpred
      refine ⟨by linarith, by linarith, by linarith, by linarith⟩

/-- C3: when every position lies within one cell size (`2h`) of the domain
box — real particles inside the box, hence ghosts at most `2h` outside — the
grid-accelerated density of every particle equals the all-pairs reference
density: the 3x3 block of cells visited around a particle's cell covers every
within-cutoff pair exactly once.  In addition, every position produced by the
ghost generator from an in-box real set satisfies that margin. -/
theorem compute_density_grid_eq_allpairs
    (positions : List Vec2) (masses : List ℝ) (h : ℝ) (dmin dmax : Vec2)
    (hh : 0 < h) (hx : dmin.1 ≤ dmax.1) (hy : dmin.2 ≤ dmax.2)
    (hin : ∀ p ∈ positions, dmin.1 - 2 * h < p.1 ∧ p.1 < dmax.1 + 2 * h ∧
      dmin.2 - 2 * h < p.2 ∧ p.2 < dmax.2 + 2 * h) :
    compute_density positions masses h dmin (2 * h)
        (n_cells_axis dmin.1 dmax.1 (2 * h)) (n_cells_axis dmin.2 dmax.2 (2 * h))
        (gridOffsets (cellIds positions dmin (2 * h) (n_cells_axis dmin.1 dmax.1 (2 * h))
            (n_cells_axis dmin.2 dmax.2 (2 * h)))
          ((n_cells_axis dmin.1 dmax.1 (2 * h) * n_cells_axis dmin.2 dmax.2 (2 * h)).toNat))
        (gridSorted (cellIds positions dmin (2 * h) (n_cells_axis dmin.1 dmax.1 (2 * h))
            (n_cells_axis dmin.2 dmax.2 (2 * h)))
          ((n_cells_axis dmin.1 dmax.1 (2 * h) * n_cells_axis dmin.2 dmax.2 (2 * h)).toNat)) =
      positions.map (refDensity positions masses h) ∧
    (∀ s : PState, (∀ p ∈ s.pos, dmin.1 ≤ p.1 ∧ p.1 ≤ dmax.1 ∧ dmin.2 ≤ p.2 ∧ p.2 ≤ dmax.2) →
      ∀ p ∈ (generate_ghost_particles s h dmin dmax).pos,
        dmin.1 - 2 * h < p.1 ∧ p.1 < dmax.1 + 2 * h ∧
          dmin.2 - 2 * h < p.2 ∧ p.2 < dmax.2 + 2 * h) :=
  compute_density_grid_eq_allpairs_aux positions masses h dmin dmax hh hx hy hin

/-- Witness for C3: one particle in the unit box with `h = 1`. -/
theorem compute_density_grid_eq_allpairs_witness :
    compute_density [((0.5 : ℝ), (0.5 : ℝ))] [1] 1 ((0 : ℝ), (0 : ℝ)) (2 * 1)
        (n_cells_axis 0 1 (2 * 1)) (n_cells_axis 0 1 (2 * 1))
        (gridOffsets (cellIds [((0.5 : ℝ), (0.5 : ℝ))] (0, 0) (2 * 1)
            (n_cells_axis 0 1 (2 * 1)) (n_cells_axis 0 1 (2 * 1)))
          ((n_cells_axis 0 1 (2 * 1) * n_cells_axis 0 1 (2 * 1)).toNat))
        (gridSorted (cellIds [((0.5 : ℝ), (0.5 : ℝ))] (0, 0) (2 * 1)
            (n_cells_axis 0 1 (2 * 1)) (n_cells_axis 0 1 (2 * 1)))
          ((n_cells_axis 0 1 (2 * 1) * n_cells_axis 0 1 (2 * 1)).toNat)) =
      [((0.5 : ℝ), (0.5 : ℝ))].map (refDensity [((0.5 : ℝ), (0.5 : ℝ))] [1] 1) :=
  (compute_density_grid_eq_allpairs [((0.5 : ℝ), (0.5 : ℝ))] [1] 1 (0, 0) (1, 1)
    one_pos (by norm_num) (by norm_num)
    (by
      intro p hp
      simp only [List.mem_singleton] at hp
      subst hp
      norm_num)).1

/-! ## physics.py: pressure and forces -/

/-- `compute_pressure` (Tait equation of state): `p0 * ((rho/rho_ref)^7 - 1)`.
The source raises to the float power `7.0`; for the non-negative density
ratios at which pressures are ever read this equals the natural power `7`
used here. -/
def compute_pressure (densities rho_refs : List ℝ) (p0 : ℝ) : List ℝ :=
  (List.range densities.length).map fun i =>
    p0 * ((densities.getD i 0 / rho_refs.getD i 0) ^ EOS_GAMMA - 1)

/-- `calculate_pressure_force`: `-m_j * (P_i/rho_i^2 + P_j/rho_j^2) * grad_w`. -/
def calculate_pressure_force (p_i p_j rho_i rho_j m_j : ℝ) (grad : Vec2) : Vec2 :=
  (-m_j * (p_i / rho_i ^ 2 + p_j / rho_j ^ 2) * grad.1,
   -m_j * (p_i / rho_i ^ 2 + p_j / rho_j ^ 2) * grad.2)

/-- `calculate_viscosity_force` (Monaghan artificial viscosity), applied only
to approaching pairs (`v·r < 0`); the local `mu` of the source is inlined. -/
def calculate_viscosity_force (rvec vvec : Vec2) (r2 rho_i rho_j m_j h alpha beta : ℝ)
    (grad : Vec2) : Vec2 :=
  if vvec.1 * rvec.1 + vvec.2 * rvec.2 < 0 then
    (-m_j * ((-alpha * SOUND_SPEED *
        (h * (vvec.1 * rvec.1 + vvec.2 * rvec.2) / (r2 + VISCOSITY_EPSILON * h ^ 2)) +
        beta * (h * (vvec.1 * rvec.1 + vvec.2 * rvec.2) /
          (r2 + VISCOSITY_EPSILON * h ^ 2)) ^ 2) / ((rho_i + rho_j) / 2)) * grad.1,
     -m_j * ((-alpha * SOUND_SPEED *
        (h * (vvec.1 * rvec.1 + vvec.2 * rvec.2) / (r2 + VISCOSITY_EPSILON * h ^ 2)) +
        beta * (h * (vvec.1 * rvec.1 + vvec.2 * rvec.2) /
          (r2 + VISCOSITY_EPSILON * h ^ 2)) ^ 2) / ((rho_i + rho_j) / 2)) * grad.2)
  else (0, 0)

/-- One neighbor's contribution in the force loop of `compute_forces`:
the pair `(total force contribution, viscosity-only contribution)` of
neighbor `j` acting on particle `i`, including the self/invalid-density/
distance-window guards.  `np.isnan` never fires in the real-number model. -/
def neighborContrib (positions velocities : List Vec2) (densities pressures masses : List ℝ)
    (h alpha beta : ℝ) (i j : ℕ) : Vec2 × Vec2 :=
  if j = i then ((0, 0), (0, 0))
  else if densities.getD j 0 < MIN_DENSITY then ((0, 0), (0, 0))
  else if (((positions.getD i (0,0)).1 - (positions.getD j (0,0)).1) ^ 2 +
        ((positions.getD i (0,0)).2 - (positions.getD j (0,0)).2) ^ 2 <
        KERNEL_CUTOFF_SQ_FACTOR * h ^ 2) ∧
      (((positions.getD i (0,0)).1 - (positions.getD j (0,0)).1) ^ 2 +
        ((positions.getD i (0,0)).2 - (positions.getD j (0,0)).2) ^ 2 > MIN_DIST_SQ) then
    let rvec : Vec2 := ((positions.getD i (0,0)).1 - (positions.getD j (0,0)).1,
      (positions.getD i (0,0)).2 - (positions.getD j (0,0)).2)
    let vvec : Vec2 := ((velocities.getD i (0,0)).1 - (velocities.getD j (0,0)).1,
      (velocities.getD i (0,0)).2 - (velocities.getD j (0,0)).2)
    let grad := cubic_spline_kernel_grad rvec h
    let fp := calculate_pressure_force (pressures.getD i 0) (pressures.getD j 0)
      (densities.getD i 0) (densities.getD j 0) (masses.getD j 0) grad
    let fv := calculate_viscosity_force rvec vvec (rvec.1 ^ 2 + rvec.2 ^ 2)
      (densities.getD i 0) (densities.getD j 0) (masses.getD j 0) h alpha beta grad
    ((fp.1 + fv.1, fp.2 + fv.2), fv)
  else ((0, 0), (0, 0))

/-- The contribution of one grid cell's bucket in the force loop. -/
def cellSliceNbr (positions velocities : List Vec2) (densities pressures masses : List ℝ)
    (h alpha beta : ℝ) (offs sorted : List ℕ) (cid : ℕ) (i : ℕ) : Vec2 × Vec2 :=
  (((sorted.drop (offs.getD cid 0)).take (offs.getD (cid + 1) 0 - offs.getD cid 0)).map
    fun j => neighborContrib positions velocities densities pressures masses h alpha beta i j).sum

/-- The 3x3-block neighbor accumulation of `compute_forces` for particle `i`:
`(force sum, viscosity-only sum)`. -/
def nbrSum (positions velocities : List Vec2) (densities pressures masses : List ℝ)
    (h alpha beta : ℝ) (dmin : Vec2) (gs : ℝ) (ncx ncy : ℤ) (offs sorted : List ℕ)
    (i : ℕ) : Vec2 × Vec2 :=
  ∑ d ∈ Finset.Icc (-1 : ℤ) 1 ×ˢ Finset.Icc (-1 : ℤ) 1,
    if 0 ≤ pyInt (((positions.getD i (0,0)).1 - dmin.1) / gs) + d.1 ∧
        pyInt (((positions.getD i (0,0)).1 - dmin.1) / gs) + d.1 < ncx ∧
        0 ≤ pyInt (((positions.getD i (0,0)).2 - dmin.2) / gs) + d.2 ∧
        pyInt (((positions.getD i (0,0)).2 - dmin.2) / gs) + d.2 < ncy then
      cellSliceNbr positions velocities densities pressures masses h alpha beta offs sorted
        ((pyInt (((positions.getD i (0,0)).1 - dmin.1) / gs) + d.1 +
          (pyInt (((positions.getD i (0,0)).2 - dmin.2) / gs) + d.2) * ncx).toNat) i
    else 0

/-- `compute_forces` from physics.py: for each of the first `n_active` (real)
particles, gravity plus the pressure and viscosity contributions of valid
neighbors, and the dissipated power `-m_i * (a_visc_i . v_i)`.  A particle
whose own density is invalid keeps gravity-only acceleration and zero power. -/
def compute_forces (positions velocities : List Vec2)
    (densities pressures masses : List ℝ) (h : ℝ) (gravity : Vec2) (dmin : Vec2)
    (gs : ℝ) (ncx ncy : ℤ) (offs sorted : List ℕ) (n_active : ℕ)
    (alpha beta : ℝ) : List Vec2 × List ℝ :=
  ((List.range n_active).map fun i =>
      if densities.getD i 0 < MIN_DENSITY then gravity
      else
        (gravity.1 + (nbrSum positions velocities densities pressures masses h alpha beta
            dmin gs ncx ncy offs sorted i).1.1,
         gravity.2 + (nbrSum positions velocities densities pressures masses h alpha beta
            dmin gs ncx ncy offs sorted i).1.2),
   (List.range n_active).map fun i =>
      if densities.getD i 0 < MIN_DENSITY then 0
      else
        -masses.getD i 0 *
          ((nbrSum positions velocities densities pressures masses h alpha beta
              dmin gs ncx ncy offs sorted i).2.1 * (velocities.getD i (0,0)).1 +
           (nbrSum positions velocities densities pressures masses h alpha beta
              dmin gs ncx ncy offs sorted i).2.2 * (velocities.getD i (0,0)).2))

lemma neighborContrib_congr (positions velocities velocities' : List Vec2)
    (densities pressures pressures' masses masses' : List ℝ) (h alpha beta : ℝ) (i j : ℕ)
    (hagree : ∀ k, ¬ densities.getD k 0 < MIN_DENSITY →
      velocities.getD k (0,0) = velocities'.getD k (0,0) ∧
      masses.getD k 0 = masses'.getD k 0 ∧ pressures.getD k 0 = pressures'.getD k 0)
    (hi : ¬ densities.getD i 0 < MIN_DENSITY) :
    neighborContrib positions velocities' densities pressures' masses' h alpha beta i j =
      neighborContrib positions velocities densities pressures masses h alpha beta i j := by
  unfold neighborContrib
  by_cases hji : j = i
  · rw [if_pos hji, if_pos hji]
  · rw [if_neg hji, if_neg hji]
    by_cases hjv : densities.getD j 0 < MIN_DENSITY
    · rw [if_pos hjv, if_pos hjv]
    · rw [if_neg hjv, if_neg hjv]
      obtain ⟨hvi, hmi, hpi⟩ := hagree i hi
      obtain ⟨hvj, hmj, hpj⟩ := hagree j hjv
      rw [← hvi, ← hvj, ← hmj, ← hpi, ← hpj]

/-- C4: a real particle whose density is below the minimum-density threshold
(the `np.isnan` disjunct has no counterpart over ℝ) gets exactly the gravity
acceleration and zero viscous power; and an invalid particle contributes
nothing as a neighbor: the outputs are unchanged under arbitrary modification
of the velocities, masses and pressures of invalid particles.  The evaluator
is a total function: the condition is never fatal. -/
theorem compute_forces_invalid_density (positions velocities : List Vec2)
    (densities pressures masses : List ℝ) (h : ℝ) (gravity dmin : Vec2) (gs : ℝ)
    (ncx ncy : ℤ) (offs sorted : List ℕ) (n_active : ℕ) (alpha beta : ℝ) :
    (∀ i < n_active, densities.getD i 0 < MIN_DENSITY →
      (compute_forces positions velocities densities pressures masses h gravity dmin gs
          ncx ncy offs sorted n_active alpha beta).1.getD i (0,0) = gravity ∧
      (compute_forces positions velocities densities pressures masses h gravity dmin gs
          ncx ncy offs sorted n_active alpha beta).2.getD i 0 = 0) ∧
    (∀ (velocities' : List Vec2) (pressures' masses' : List ℝ),
      (∀ k, ¬ densities.getD k 0 < MIN_DENSITY →
        velocities.getD k (0,0) = velocities'.getD k (0,0) ∧
        masses.getD k 0 = masses'.getD k 0 ∧ pressures.getD k 0 = pressures'.getD k 0) →
      compute_forces positions velocities' densities pressures' masses' h gravity dmin gs
          ncx ncy offs sorted n_active alpha beta =
        compute_forces positions velocities densities pressures masses h gravity dmin gs
          ncx ncy offs sorted n_active alpha beta) := by
  constructor
  · intro i hi hinv
    have hri : (List.range n_active).getD i 0 = i := by
      rw [List.getD_eq_getElem _ _ (by simpa using hi)]
      simp
    unfold compute_forces
    constructor
    · rw [getD_map_of_lt (List.range n_active) _ (by simpa using hi) 0, hri, if_pos hinv]
    · rw [getD_map_of_lt (List.range n_active) _ (by simpa using hi) 0, hri, if_pos hinv]
  · intro velocities' pressures' masses' hagree
    have hnbr : ∀ i, ¬ densities.getD i 0 < MIN_DENSITY →
        nbrSum positions velocities' densities pressures' masses' h alpha beta dmin gs
            ncx ncy offs sorted i =
          nbrSum positions velocities densities pressures masses h alpha beta dmin gs
            ncx ncy offs sorted i := by
      intro i hi
      unfold nbrSum
      refine Finset.sum_congr rfl fun d _ => ?_
      by_cases hb : 0 ≤ pyInt (((positions.getD i (0,0)).1 - dmin.1) / gs) + d.1 ∧
          pyInt (((positions.getD i (0,0)).1 - dmin.1) / gs) + d.1 < ncx ∧
          0 ≤ pyInt (((positions.getD i (0,0)).2 - dmin.2) / gs) + d.2 ∧
          pyInt (((positions.getD i (0,0)).2 - dmin.2) / gs) + d.2 < ncy
      · rw [if_pos hb, if_pos hb]
        unfold cellSliceNbr
        congr 1
        refine List.map_congr_left fun j _ => ?_
        exact neighborContrib_congr positions velocities velocities' densities pressures
          pressures' masses masses' h alpha beta i j hagree hi
      · rw [if_neg hb, if_neg hb]
    unfold compute_forces
    refine Prod.ext ?_ ?_
    · simp only
      refine List.map_congr_left fun i _ => ?_
      by_cases hinv : densities.getD i 0 < MIN_DENSITY
      · rw [if_pos hinv, if_pos hinv]
      · rw [if_neg hinv, if_neg hinv, hnbr i hinv]
    · simp only
      refine List.map_congr_left fun i _ => ?_
      by_cases hinv : densities.getD i 0 < MIN_DENSITY
      · rw [if_pos hinv, if_pos hinv]
      · rw [if_neg hinv, if_neg hinv, hnbr i hinv, (hagree i hinv).1, (hagree i hinv).2.1]

/-- Witness for C4: a single particle with density `0.05 < 0.1` keeps
gravity-only acceleration and zero viscous power. -/
theorem compute_forces_invalid_density_witness :
    (0:ℕ) < 1 ∧ (0.05:ℝ) < MIN_DENSITY ∧
    (compute_forces [((0,0) : Vec2)] [((0,0) : Vec2)] [(0.05:ℝ)] [0] [1] 1 ((0,-100) : Vec2)
        (0,0) 2 1 1 [0,1] [0] 1 0.02 0).1.getD 0 (0,0) = ((0,-100) : Vec2) ∧
    (compute_forces [((0,0) : Vec2)] [((0,0) : Vec2)] [(0.05:ℝ)] [0] [1] 1 ((0,-100) : Vec2)
        (0,0) 2 1 1 [0,1] [0] 1 0.02 0).2.getD 0 0 = 0 := by
  have h05 : (0.05:ℝ) < MIN_DENSITY := by
    unfold MIN_DENSITY
    norm_num
  have hd : ([(0.05:ℝ)]).getD 0 0 < MIN_DENSITY := by simpa using h05
  obtain ⟨ha, hp⟩ := (compute_forces_invalid_density [((0,0) : Vec2)] [((0,0) : Vec2)]
    [(0.05:ℝ)] [0] [1] 1 ((0,-100) : Vec2) (0,0) 2 1 1 [0,1] [0] 1 0.02 0).1
    0 one_pos hd
  exact ⟨one_pos, h05, ha, hp⟩

/-! ## sph_solver.py -/

/-- Configuration stored by `SPHSolver.__init__` (h, dt, p0, gravity, domain
bounds, alpha; `grid_size = 2*h` is derived). -/
structure SolverConfig where
  h : ℝ
  dt : ℝ
  p0 : ℝ
  gravity : Vec2
  domain_min : Vec2
  domain_max : Vec2
  alpha : ℝ

/-- The persistent state of an `SPHSolver` instance. -/
structure SolverState where
  positions : List Vec2
  velocities : List Vec2
  masses : List ℝ
  densities : List ℝ
  colors : List ℤ
  rho_refs : List ℝ
  internal_energy : ℝ
  accelerations : List Vec2

/-- `SPHSolver._compute_accel`: ghosts, grid, density, pressure, forces.
Returns `(accelerations, viscosity_power, new real-particle densities)`
(the method also overwrites `self.densities` with the recomputed values). -/
def computeAccel (cfg : SolverConfig) (masses densities : List ℝ) (colors : List ℤ)
    (rho_refs : List ℝ) (pos vel : List Vec2) : List Vec2 × List ℝ × List ℝ :=
  let aug := generate_ghost_particles ⟨pos, vel, masses, densities, colors, rho_refs⟩
    cfg.h cfg.domain_min cfg.domain_max
  let ncx := n_cells_axis cfg.domain_min.1 cfg.domain_max.1 (2 * cfg.h)
  let ncy := n_cells_axis cfg.domain_min.2 cfg.domain_max.2 (2 * cfg.h)
  let nC := (ncx * ncy).toNat
  let ids := cellIds aug.pos cfg.domain_min (2 * cfg.h) ncx ncy
  let offs := gridOffsets ids nC
  let sorted := gridSorted ids nC
  let densities_all := compute_density aug.pos aug.mass cfg.h cfg.domain_min (2 * cfg.h)
    ncx ncy offs sorted
  let pressures_all := compute_pressure densities_all aug.rref cfg.p0
  let fr := compute_forces aug.pos aug.vel densities_all pressures_all aug.mass cfg.h
    cfg.gravity cfg.domain_min (2 * cfg.h) ncx ncy offs sorted pos.length cfg.alpha 0
  (fr.1, fr.2, densities_all.take pos.length)

/-- `SPHSolver.__init__`: store the arrays and configuration, set the
internal energy to `0.0` (there is no internal-energy parameter), and run the
initial force calculation (`step_physics(first_step=True)`), which computes
the accelerations and overwrites the densities. -/
def solverInit (cfg : SolverConfig) (positions velocities : List Vec2)
    (masses densities : List ℝ) (colors : List ℤ) (rho_refs : List ℝ) : SolverState :=
  { positions := positions
    velocities := velocities
    masses := masses
    densities := (computeAccel cfg masses densities colors rho_refs positions velocities).2.2
    colors := colors
    rho_refs := rho_refs
    internal_energy := 0.0
    accelerations := (computeAccel cfg masses densities colors rho_refs positions velocities).1 }

/-- The per-axis boundary treatment of `step_physics`: the low and high masks
are taken on the incoming coordinate, the low reflection is applied first and
the high reflection to its result, and the half-step velocity component is
multiplied by `-0.5` when either mask fired. -/
def wallAxis (dmin dmax x v : ℝ) : ℝ × ℝ :=
  (if x > dmax then 2.0 * dmax - (if x < dmin then 2.0 * dmin - x else x)
   else (if x < dmin then 2.0 * dmin - x else x),
   if x < dmin ∨ x > dmax then v * (-0.5) else v)

/-- Both axes of the boundary treatment, returning `(position, velocity)`. -/
def wallReflect (dmin dmax : Vec2) (p v : Vec2) : Vec2 × Vec2 :=
  (((wallAxis dmin.1 dmax.1 p.1 v.1).1, (wallAxis dmin.2 dmax.2 p.2 v.2).1),
   ((wallAxis dmin.1 dmax.1 p.1 v.1).2, (wallAxis dmin.2 dmax.2 p.2 v.2).2))

/-- `SPHSolver.step_physics` (steady step): half-kick, drift, wall
reflection, force recomputation at `(pos_new, v_half)`, internal-energy
update by `sum(visc_power) * dt`, full kick. -/
def stepPhysics (cfg : SolverConfig) (s : SolverState) : SolverState :=
  let v_half := List.zipWith
    (fun v a => (v.1 + a.1 * (cfg.dt / 2.0), v.2 + a.2 * (cfg.dt / 2.0)))
    s.velocities s.accelerations
  let pos_drift := List.zipWith (fun p v => (p.1 + v.1 * cfg.dt, p.2 + v.2 * cfg.dt))
    s.positions v_half
  let pos_new := List.zipWith
    (fun p v => (wallReflect cfg.domain_min cfg.domain_max p v).1) pos_drift v_half
  let v_half' := List.zipWith
    (fun p v => (wallReflect cfg.domain_min cfg.domain_max p v).2) pos_drift v_half
  let res := computeAccel cfg s.masses s.densities s.colors s.rho_refs pos_new v_half'
  { positions := pos_new
    velocities := List.zipWith
      (fun v a => (v.1 + 0.5 * a.1 * cfg.dt, v.2 + 0.5 * a.2 * cfg.dt)) v_half' res.1
    masses := s.masses
    densities := res.2.2
    colors := s.colors
    rho_refs := s.rho_refs
    internal_energy := s.internal_energy + res.2.1.sum * cfg.dt
    accelerations := res.1 }

/-- The resume path of `run_simulation` (simulation.py): construct the solver
from the checkpoint arrays, then assign the saved internal energy to the
freshly constructed solver (the constructor itself always starts at `0.0`). -/
def resumeSolver (cfg : SolverConfig) (positions velocities : List Vec2)
    (masses densities : List ℝ) (colors : List ℤ) (rho_refs : List ℝ)
    (internal_energy : ℝ) : SolverState :=
  { solverInit cfg positions velocities masses densities colors rho_refs with
      internal_energy := internal_energy }

/-- C5 (code evidence): `SPHSolver.__init__` performs no validation at all.
Construction with a non-positive time step succeeds and yields a runnable
solver — the constructor does not even read `dt` — contradicting the
required fatal configuration check. -/
theorem solverInit_accepts_nonpositive_dt :
    (solverInit ⟨1, 0, 1, (0, -100), (0, 0), (10, 10), 0.02⟩
        [((5, 5) : Vec2)] [((0, 0) : Vec2)] [1] [1] [0] [1]).positions = [((5, 5) : Vec2)] ∧
    (solverInit ⟨1, 0, 1, (0, -100), (0, 0), (10, 10), 0.02⟩
        [((5, 5) : Vec2)] [((0, 0) : Vec2)] [1] [1] [0] [1]).internal_energy = 0 ∧
    (solverInit ⟨1, -1, 1, (0, -100), (0, 0), (10, 10), 0.02⟩
        [((5, 5) : Vec2)] [((0, 0) : Vec2)] [1] [1] [0] [1]).positions = [((5, 5) : Vec2)] := by
  refine ⟨rfl, ?_, rfl⟩
  show (0.0 : ℝ) = 0
  norm_num

/-! Specification-side steady step, written from the claim's words (C9):
Kick-Drift-Kick with disjoint-case wall reflection about the violated
boundary, damping the reflected half-step velocity component by `-0.5`. -/

def specWallAxis (dmin dmax x v : ℝ) : ℝ × ℝ :=
  if x < dmin then (dmin + (dmin - x), v * (-0.5))
  else if x > dmax then (dmax - (x - dmax), v * (-0.5))
  else (x, v)

def specStep (cfg : SolverConfig) (s : SolverState) : SolverState :=
  let v_half := List.zipWith
    (fun v a => (v.1 + a.1 * (cfg.dt / 2.0), v.2 + a.2 * (cfg.dt / 2.0)))
    s.velocities s.accelerations
  let pos_drift := List.zipWith (fun p v => (p.1 + v.1 * cfg.dt, p.2 + v.2 * cfg.dt))
    s.positions v_half
  let pos_new := List.zipWith
    (fun p v => ((specWallAxis cfg.domain_min.1 cfg.domain_max.1 p.1 v.1).1,
      (specWallAxis cfg.domain_min.2 cfg.domain_max.2 p.2 v.2).1)) pos_drift v_half
  let v_half' := List.zipWith
    (fun p v => ((specWallAxis cfg.domain_min.1 cfg.domain_max.1 p.1 v.1).2,
      (specWallAxis cfg.domain_min.2 cfg.domain_max.2 p.2 v.2).2)) pos_drift v_half
  let res := computeAccel cfg s.masses s.densities s.colors s.rho_refs pos_new v_half'
  { positions := pos_new
    velocities := List.zipWith
      (fun v a => (v.1 + 0.5 * a.1 * cfg.dt, v.2 + 0.5 * a.2 * cfg.dt)) v_half' res.1
    masses := s.masses
    densities := res.2.2
    colors := s.colors
    rho_refs := s.rho_refs
    internal_energy := s.internal_energy + res.2.1.sum * cfg.dt
    accelerations := res.1 }

lemma wallAxis_eq_spec {dmin dmax : ℝ} (hdd : dmin ≤ dmax) (x v : ℝ) :
    wallAxis dmin dmax x v = specWallAxis dmin dmax x v := by
  unfold wallAxis specWallAxis
  by_cases hlo : x < dmin
  · have hhi : ¬ x > dmax := by
      simp only [gt_iff_lt, not_lt]
      linarith
    simp only [if_pos hlo, if_neg hhi, if_pos (Or.inl hlo), Prod.mk.injEq]
    constructor <;> ring
  · by_cases hhi : x > dmax
    · simp only [if_pos hhi, if_neg hlo, if_pos (Or.inr hhi), Prod.mk.injEq]
      constructor <;> ring
    · simp only [if_neg hlo, if_neg hhi,
        if_neg (fun hc : x < dmin ∨ x > dmax => hc.elim hlo hhi)]

/-- C9: with a well-formed domain box, every steady step is exactly the
Kick-Drift-Kick sequence of the specification: half kick, drift, per-axis
reflect-and-damp about the violated boundary, force and viscous-power
recomputation at `(pos_new, v_half)`, full kick, and internal-energy
increment by `sum(viscous power) * dt`. -/
theorem stepPhysics_eq_specStep (cfg : SolverConfig) (s : SolverState)
    (hx : cfg.domain_min.1 ≤ cfg.domain_max.1)
    (hy : cfg.domain_min.2 ≤ cfg.domain_max.2) :
    stepPhysics cfg s = specStep cfg s := by
  unfold stepPhysics specStep
  have hrefl : ∀ p v : Vec2, wallReflect cfg.domain_min cfg.domain_max p v =
      (((specWallAxis cfg.domain_min.1 cfg.domain_max.1 p.1 v.1).1,
        (specWallAxis cfg.domain_min.2 cfg.domain_max.2 p.2 v.2).1),
       ((specWallAxis cfg.domain_min.1 cfg.domain_max.1 p.1 v.1).2,
        (specWallAxis cfg.domain_min.2 cfg.domain_max.2 p.2 v.2).2)) := by
    intro p v
    unfold wallReflect
    rw [wallAxis_eq_spec hx, wallAxis_eq_spec hy]
  simp only [hrefl]

/-- Witness for C9 on a concrete one-particle state (a near-wall position, so
the reflection path is exercised). -/
theorem stepPhysics_eq_specStep_witness :
    stepPhysics ⟨1, 0.1, 1, (0, -100), (0, 0), (10, 10), 0.02⟩
        ⟨[(0.5, 5)], [(-20, 0)], [1], [1], [0], [1], 0, [(0, 0)]⟩ =
      specStep ⟨1, 0.1, 1, (0, -100), (0, 0), (10, 10), 0.02⟩
        ⟨[(0.5, 5)], [(-20, 0)], [1], [1], [0], [1], 0, [(0, 0)]⟩ :=
  stepPhysics_eq_specStep _ _ (by norm_num) (by norm_num)

/- Worker form of the C10 statement; also reused when reasoning about
resumed solvers (the constructor-supplied density array is never read). -/
lemma computeAccel_densities_irrelevant_aux (cfg : SolverConfig)
    (masses : List ℝ) (colors : List ℤ) (rho_refs : List ℝ) (pos vel : List Vec2)
    (densities densities' : List ℝ) :
    computeAccel cfg masses densities colors rho_refs pos vel =
      computeAccel cfg masses densities' colors rho_refs pos vel := by
  have hpos : ∀ d : List ℝ,
      (generate_ghost_particles ⟨pos, vel, masses, d, colors, rho_refs⟩
        cfg.h cfg.domain_min cfg.domain_max).pos =
      (generate_ghost_particles ⟨pos, vel, masses, densities, colors, rho_refs⟩
        cfg.h cfg.domain_min cfg.domain_max).pos := fun _ => rfl
  have hvel : ∀ d : List ℝ,
      (generate_ghost_particles ⟨pos, vel, masses, d, colors, rho_refs⟩
        cfg.h cfg.domain_min cfg.domain_max).vel =
      (generate_ghost_particles ⟨pos, vel, masses, densities, colors, rho_refs⟩
        cfg.h cfg.domain_min cfg.domain_max).vel := fun _ => rfl
  have hmass : ∀ d : List ℝ,
      (generate_ghost_particles ⟨pos, vel, masses, d, colors, rho_refs⟩
        cfg.h cfg.domain_min cfg.domain_max).mass =
      (generate_ghost_particles ⟨pos, vel, masses, densities, colors, rho_refs⟩
        cfg.h cfg.domain_min cfg.domain_max).mass := fun _ => rfl
  have hrref : ∀ d : List ℝ,
      (generate_ghost_particles ⟨pos, vel, masses, d, colors, rho_refs⟩
        cfg.h cfg.domain_min cfg.domain_max).rref =
      (generate_ghost_particles ⟨pos, vel, masses, densities, colors, rho_refs⟩
        cfg.h cfg.domain_min cfg.domain_max).rref := fun _ => rfl
  simp only [computeAccel]
  rw [hpos densities', hvel densities', hmass densities', hrref densities']

/-- C10: the density array supplied at construction has no influence: the
ghost generator copies it into the augmented set but every downstream phase
reads only the densities recomputed from positions and masses, so
`_compute_accel` returns identical accelerations, viscous powers and
recomputed densities for any two density inputs. -/
theorem computeAccel_densities_input_irrelevant (cfg : SolverConfig)
    (masses : List ℝ) (colors : List ℤ) (rho_refs : List ℝ) (pos vel : List Vec2)
    (densities densities' : List ℝ) :
    computeAccel cfg masses densities colors rho_refs pos vel =
      computeAccel cfg masses densities' colors rho_refs pos vel :=
  computeAccel_densities_irrelevant_aux cfg masses colors rho_refs pos vel densities densities'

/-! ## Generic grid-window / all-pairs equivalence

The coverage argument of C3 holds for any cutoff-supported per-neighbor
quantity; this generic form is used for the force loop and for concrete
evaluations. -/

lemma filter_range_map_vsum {M : Type} [AddCommMonoid M] (n : ℕ) (p : ℕ → Bool)
    (f : ℕ → M) :
    (((List.range n).filter p).map f).sum = ∑ j ∈ Finset.range n, if p j then f j else 0 := by
  induction n with
  | zero => simp
  | succ m ih =>
    rw [List.range_succ, List.filter_append, List.map_append, List.sum_append,
      Finset.sum_range_succ, ih]
    by_cases hp : p m
    · simp [hp]
    · simp [hp]

set_option maxHeartbeats 2000000 in
lemma grid_window_sum_eq_allpairs {M : Type} [AddCommMonoid M]
    (positions : List Vec2) (h : ℝ) (dmin dmax : Vec2)
    (hh : 0 < h) (hx : dmin.1 ≤ dmax.1) (hy : dmin.2 ≤ dmax.2)
    (hin : ∀ p ∈ positions, dmin.1 - 2 * h < p.1 ∧ p.1 < dmax.1 + 2 * h ∧
      dmin.2 - 2 * h < p.2 ∧ p.2 < dmax.2 + 2 * h)
    (q : Vec2) (hq : q ∈ positions) (F : ℕ → M)
    (hF : ∀ j, ¬ ((q.1 - (positions.getD j (0,0)).1) ^ 2 +
        (q.2 - (positions.getD j (0,0)).2) ^ 2 < KERNEL_CUTOFF_SQ_FACTOR * h ^ 2) →
      F j = 0) :
    (∑ d ∈ Finset.Icc (-1 : ℤ) 1 ×ˢ Finset.Icc (-1 : ℤ) 1,
      if 0 ≤ pyInt ((q.1 - dmin.1) / (2 * h)) + d.1 ∧
          pyInt ((q.1 - dmin.1) / (2 * h)) + d.1 < n_cells_axis dmin.1 dmax.1 (2 * h) ∧
          0 ≤ pyInt ((q.2 - dmin.2) / (2 * h)) + d.2 ∧
          pyInt ((q.2 - dmin.2) / (2 * h)) + d.2 < n_cells_axis dmin.2 dmax.2 (2 * h) then
        ((((gridSorted (cellIds positions dmin (2 * h) (n_cells_axis dmin.1 dmax.1 (2 * h))
              (n_cells_axis dmin.2 dmax.2 (2 * h)))
            ((n_cells_axis dmin.1 dmax.1 (2 * h) * n_cells_axis dmin.2 dmax.2 (2 * h)).toNat)).drop
            ((gridOffsets (cellIds positions dmin (2 * h) (n_cells_axis dmin.1 dmax.1 (2 * h))
                (n_cells_axis dmin.2 dmax.2 (2 * h)))
              ((n_cells_axis dmin.1 dmax.1 (2 * h) * n_cells_axis dmin.2 dmax.2 (2 * h)).toNat)).getD
              ((pyInt ((q.1 - dmin.1) / (2 * h)) + d.1 +
                (pyInt ((q.2 - dmin.2) / (2 * h)) + d.2) *
                  n_cells_axis dmin.1 dmax.1 (2 * h)).toNat) 0)).take
            ((gridOffsets (cellIds positions dmin (2 * h) (n_cells_axis dmin.1 dmax.1 (2 * h))
                (n_cells_axis dmin.2 dmax.2 (2 * h)))
              ((n_cells_axis dmin.1 dmax.1 (2 * h) * n_cells_axis dmin.2 dmax.2 (2 * h)).toNat)).getD
              ((pyInt ((q.1 - dmin.1) / (2 * h)) + d.1 +
                (pyInt ((q.2 - dmin.2) / (2 * h)) + d.2) *
                  n_cells_axis dmin.1 dmax.1 (2 * h)).toNat + 1) 0 -
             (gridOffsets (cellIds positions dmin (2 * h) (n_cells_axis dmin.1 dmax.1 (2 * h))
                (n_cells_axis dmin.2 dmax.2 (2 * h)))
              ((n_cells_axis dmin.1 dmax.1 (2 * h) * n_cells_axis dmin.2 dmax.2 (2 * h)).toNat)).getD
              ((pyInt ((q.1 - dmin.1) / (2 * h)) + d.1 +
                (pyInt ((q.2 - dmin.2) / (2 * h)) + d.2) *
                  n_cells_axis dmin.1 dmax.1 (2 * h)).toNat) 0)).map F).sum
      else 0) = ∑ j ∈ Finset.range positions.length, F j := by
  have hgs : (0:ℝ) < 2 * h := by linarith
  set gs : ℝ := 2 * h with hgsdef
  set ncx := n_cells_axis dmin.1 dmax.1 gs with hncxdef
  set ncy := n_cells_axis dmin.2 dmax.2 gs with hncydef
  have hncx1 : 1 ≤ ncx := n_cells_axis_pos hgs hx
  have hncy1 : 1 ≤ ncy := n_cells_axis_pos hgs hy
  set ids := cellIds positions dmin gs ncx ncy with hidsdef
  set nC := (ncx * ncy).toNat with hnCdef
  have hidlen : ids.length = positions.length := by simp [hidsdef, cellIds]
  have hcellx : ∀ p : Vec2, dmin.1 - gs < p.1 → p.1 < dmax.1 + gs →
      0 ≤ pyInt ((p.1 - dmin.1) / gs) ∧ pyInt ((p.1 - dmin.1) / gs) ≤ ncx - 1 :=
    fun p hm1 hm2 => pyInt_cell_range hgs hx hm1 hm2
  have hcelly : ∀ p : Vec2, dmin.2 - gs < p.2 → p.2 < dmax.2 + gs →
      0 ≤ pyInt ((p.2 - dmin.2) / gs) ∧ pyInt ((p.2 - dmin.2) / gs) ≤ ncy - 1 :=
    fun p hm3 hm4 => pyInt_cell_range hgs hy hm3 hm4
  have hidval : ∀ j < positions.length, ids.getD j 0 =
      pyInt (((positions.getD j (0,0)).1 - dmin.1) / gs) +
        pyInt (((positions.getD j (0,0)).2 - dmin.2) / gs) * ncx := by
    intro j hj
    have hmem : positions.getD j (0,0) ∈ positions := by
      rw [List.getD_eq_getElem _ _ hj]
      exact List.getElem_mem _
    obtain ⟨hm1, hm2, hm3, hm4⟩ := hin _ hmem
    have : ids.getD j 0 = get_cell_id (positions.getD j (0,0)) dmin gs ncx ncy := by
      rw [hidsdef]
      unfold cellIds
      exact getD_map_of_lt positions _ hj (0,0) 0
    rw [this, hncxdef, hncydef]
    exact get_cell_id_eq_unclamped hgs hx hy hm1 hm2 hm3 hm4
  obtain ⟨hq1, hq2, hq3, hq4⟩ := hin q hq
  obtain ⟨hqx0, hqx1⟩ := hcellx q hq1 hq2
  obtain ⟨hqy0, hqy1⟩ := hcelly q hq3 hq4
  set ix := pyInt ((q.1 - dmin.1) / gs) with hixdef
  set iy := pyInt ((q.2 - dmin.2) / gs) with hiydef
  have hslice : ∀ d : ℤ × ℤ,
      0 ≤ ix + d.1 → ix + d.1 < ncx → 0 ≤ iy + d.2 → iy + d.2 < ncy →
      ((((gridSorted ids nC).drop
          ((gridOffsets ids nC).getD ((ix + d.1 + (iy + d.2) * ncx).toNat) 0)).take
          ((gridOffsets ids nC).getD ((ix + d.1 + (iy + d.2) * ncx).toNat + 1) 0 -
           (gridOffsets ids nC).getD ((ix + d.1 + (iy + d.2) * ncx).toNat) 0)).map F).sum =
        ∑ j ∈ Finset.range positions.length,
          if ids.getD j 0 = ((ix + d.1 + (iy + d.2) * ncx).toNat : ℤ) then F j else 0 := by
    intro d hb1 hb2 hb3 hb4
    have hcidlt : (ix + d.1 + (iy + d.2) * ncx).toNat < nC := by
      have hlt : ix + d.1 + (iy + d.2) * ncx < ncx * ncy := by nlinarith
      have hge : 0 ≤ ix + d.1 + (iy + d.2) * ncx := by positivity
      omega
    rw [slice_eq_bucket ids nC _ hcidlt]
    unfold gridBucket
    rw [hidlen, filter_range_map_vsum]
    refine Finset.sum_congr rfl fun j _ => ?_
    by_cases hc : ids.getD j 0 = ((ix + d.1 + (iy + d.2) * ncx).toNat : ℤ)
    · rw [if_pos (by simpa using hc), if_pos hc]
    · rw [if_neg (by simpa using hc), if_neg hc]
  have hstep1 :
      (∑ d ∈ Finset.Icc (-1 : ℤ) 1 ×ˢ Finset.Icc (-1 : ℤ) 1,
        if 0 ≤ ix + d.1 ∧ ix + d.1 < ncx ∧ 0 ≤ iy + d.2 ∧ iy + d.2 < ncy then
          ((((gridSorted ids nC).drop
              ((gridOffsets ids nC).getD ((ix + d.1 + (iy + d.2) * ncx).toNat) 0)).take
              ((gridOffsets ids nC).getD ((ix + d.1 + (iy + d.2) * ncx).toNat + 1) 0 -
               (gridOffsets ids nC).getD ((ix + d.1 + (iy + d.2) * ncx).toNat) 0)).map F).sum
        else 0) =
      ∑ d ∈ Finset.Icc (-1 : ℤ) 1 ×ˢ Finset.Icc (-1 : ℤ) 1,
        ∑ j ∈ Finset.range positions.length,
          if (0 ≤ ix + d.1 ∧ ix + d.1 < ncx ∧ 0 ≤ iy + d.2 ∧ iy + d.2 < ncy) ∧
              ids.getD j 0 = ix + d.1 + (iy + d.2) * ncx then
            F j
          else 0 := by
    refine Finset.sum_congr rfl fun d _ => ?_
    by_cases hb : 0 ≤ ix + d.1 ∧ ix + d.1 < ncx ∧ 0 ≤ iy + d.2 ∧ iy + d.2 < ncy
    · rw [if_pos hb, hslice d hb.1 hb.2.1 hb.2.2.1 hb.2.2.2]
      refine Finset.sum_congr rfl fun j _ => ?_
      have hcast : ((ix + d.1 + (iy + d.2) * ncx).toNat : ℤ) =
          ix + d.1 + (iy + d.2) * ncx := by
        have : 0 ≤ ix + d.1 + (iy + d.2) * ncx := by
          have := mul_nonneg hb.2.2.1 (by omega : (0:ℤ) ≤ ncx)
          omega
        omega
      rw [hcast]
      by_cases hc : ids.getD j 0 = ix + d.1 + (iy + d.2) * ncx
      · rw [if_pos hc, if_pos ⟨hb, hc⟩]
      · rw [if_neg hc, if_neg (fun hand => hc hand.2)]
    · rw [if_neg hb]
      symm
      refine Finset.sum_eq_zero fun j _ => ?_
      rw [if_neg fun hand => hb hand.1]
  rw [hstep1, Finset.sum_comm]
  refine Finset.sum_congr rfl fun j hj => ?_
  have hjlt : j < positions.length := Finset.mem_range.mp hj
  by_cases hcut : (q.1 - (positions.getD j (0, 0)).1) ^ 2 +
      (q.2 - (positions.getD j (0, 0)).2) ^ 2 < KERNEL_CUTOFF_SQ_FACTOR * h ^ 2
  · have hjmem : positions.getD j (0,0) ∈ positions := by
      rw [List.getD_eq_getElem _ _ hjlt]
      exact List.getElem_mem _
    obtain ⟨hp1, hp2, hp3, hp4⟩ := hin _ hjmem
    obtain ⟨hjx0, hjx1⟩ := hcellx _ hp1 hp2
    obtain ⟨hjy0, hjy1⟩ := hcelly _ hp3 hp4
    set jx := pyInt (((positions.getD j (0,0)).1 - dmin.1) / gs) with hjxdef
    set jy := pyInt (((positions.getD j (0,0)).2 - dmin.2) / gs) with hjydef
    have hidj : ids.getD j 0 = jx + jy * ncx := hidval j hjlt
    have hcut4 : (q.1 - (positions.getD j (0, 0)).1) ^ 2 +
        (q.2 - (positions.getD j (0, 0)).2) ^ 2 < gs ^ 2 := by
      have : KERNEL_CUTOFF_SQ_FACTOR * h ^ 2 = gs ^ 2 := by
        rw [hgsdef]
        unfold KERNEL_CUTOFF_SQ_FACTOR
        ring
      linarith [hcut, this.symm.le]
    have hdx : -gs < q.1 - (positions.getD j (0, 0)).1 ∧
        q.1 - (positions.getD j (0, 0)).1 < gs := by
      constructor
      · by_contra hcon
        push_neg at hcon
        nlinarith [sq_nonneg (q.2 - (positions.getD j (0, 0)).2)]
      · by_contra hcon
        push_neg at hcon
        nlinarith [sq_nonneg (q.2 - (positions.getD j (0, 0)).2)]
    have hdy : -gs < q.2 - (positions.getD j (0, 0)).2 ∧
        q.2 - (positions.getD j (0, 0)).2 < gs := by
      constructor
      · by_contra hcon
        push_neg at hcon
        nlinarith [sq_nonneg (q.1 - (positions.getD j (0, 0)).1)]
      · by_contra hcon
        push_neg at hcon
        nlinarith [sq_nonneg (q.1 - (positions.getD j (0, 0)).1)]
    have hux : (q.1 - dmin.1) / gs - ((positions.getD j (0,0)).1 - dmin.1) / gs < 1 ∧
        ((positions.getD j (0,0)).1 - dmin.1) / gs - (q.1 - dmin.1) / gs < 1 := by
      have he : (q.1 - dmin.1) / gs - ((positions.getD j (0,0)).1 - dmin.1) / gs =
          (q.1 - (positions.getD j (0,0)).1) / gs := by ring
      have he' : ((positions.getD j (0,0)).1 - dmin.1) / gs - (q.1 - dmin.1) / gs =
          ((positions.getD j (0,0)).1 - q.1) / gs := by ring
      constructor
      · rw [he, div_lt_one hgs]
        linarith [hdx.2]
      · rw [he', div_lt_one hgs]
        linarith [hdx.1]
    have huy : (q.2 - dmin.2) / gs - ((positions.getD j (0,0)).2 - dmin.2) / gs < 1 ∧
        ((positions.getD j (0,0)).2 - dmin.2) / gs - (q.2 - dmin.2) / gs < 1 := by
      have he : (q.2 - dmin.2) / gs - ((positions.getD j (0,0)).2 - dmin.2) / gs =
          (q.2 - (positions.getD j (0,0)).2) / gs := by ring
      have he' : ((positions.getD j (0,0)).2 - dmin.2) / gs - (q.2 - dmin.2) / gs =
          ((positions.getD j (0,0)).2 - q.2) / gs := by ring
      constructor
      · rw [he, div_lt_one hgs]
        linarith [hdy.2]
      · rw [he', div_lt_one hgs]
        linarith [hdy.1]
    have hclx := pyInt_close hux.1 hux.2
    have hcly := pyInt_close huy.1 huy.2
    rw [← hixdef] at hclx
    rw [← hiydef] at hcly
    rw [← hjxdef] at hclx
    rw [← hjydef] at hcly
    have hd0mem : (jx - ix, jy - iy) ∈ Finset.Icc (-1 : ℤ) 1 ×ˢ Finset.Icc (-1 : ℤ) 1 := by
      rw [Finset.mem_product, Finset.mem_Icc, Finset.mem_Icc]
      omega
    have hcond0 : (0 ≤ ix + (jx - ix) ∧ ix + (jx - ix) < ncx ∧
        0 ≤ iy + (jy - iy) ∧ iy + (jy - iy) < ncy) ∧
        ids.getD j 0 = ix + (jx - ix) + (iy + (jy - iy)) * ncx := by
      refine ⟨⟨by omega, by omega, by omega, by omega⟩, ?_⟩
      rw [hidj]
      ring
    rw [Finset.sum_eq_single_of_mem (jx - ix, jy - iy) hd0mem ?uniq2]
    case uniq2 =>
      intro d hd hne
      by_cases hcond : (0 ≤ ix + d.1 ∧ ix + d.1 < ncx ∧ 0 ≤ iy + d.2 ∧ iy + d.2 < ncy) ∧
          ids.getD j 0 = ix + d.1 + (iy + d.2) * ncx
      · exfalso
        obtain ⟨⟨hb1, hb2, hb3, hb4⟩, hce⟩ := hcond
        rw [hidj] at hce
        have := @add_mul_inj jx jy (ix + d.1) (iy + d.2) ncx
          hncx1 (by omega) (by omega) hb1 hb2 hce
        apply hne
        have hd1 : d.1 = jx - ix := by omega
        have hd2 : d.2 = jy - iy := by omega
        exact Prod.ext hd1 hd2
      · rw [if_neg hcond]
    rw [if_pos hcond0]
  · have hF0 : F j = 0 := hF j hcut
    rw [hF0]
    refine Finset.sum_eq_zero fun d _ => ?_
    by_cases hcond : (0 ≤ ix + d.1 ∧ ix + d.1 < ncx ∧ 0 ≤ iy + d.2 ∧ iy + d.2 < ncy) ∧
        ids.getD j 0 = ix + d.1 + (iy + d.2) * ncx
    · simp only [if_pos hcond, hF0]
    · rw [if_neg hcond]

/-- The force-loop neighbor accumulation equals the all-pairs sum when all
positions are within one cell size of the box. -/
lemma nbrSum_eq_allpairs (positions velocities : List Vec2)
    (densities pressures masses : List ℝ) (h alpha beta : ℝ) (dmin dmax : Vec2)
    (hh : 0 < h) (hx : dmin.1 ≤ dmax.1) (hy : dmin.2 ≤ dmax.2)
    (hin : ∀ p ∈ positions, dmin.1 - 2 * h < p.1 ∧ p.1 < dmax.1 + 2 * h ∧
      dmin.2 - 2 * h < p.2 ∧ p.2 < dmax.2 + 2 * h)
    (i : ℕ) (hi : i < positions.length) :
    nbrSum positions velocities densities pressures masses h alpha beta dmin (2 * h)
        (n_cells_axis dmin.1 dmax.1 (2 * h)) (n_cells_axis dmin.2 dmax.2 (2 * h))
        (gridOffsets (cellIds positions dmin (2 * h) (n_cells_axis dmin.1 dmax.1 (2 * h))
            (n_cells_axis dmin.2 dmax.2 (2 * h)))
          ((n_cells_axis dmin.1 dmax.1 (2 * h) * n_cells_axis dmin.2 dmax.2 (2 * h)).toNat))
        (gridSorted (cellIds positions dmin (2 * h) (n_cells_axis dmin.1 dmax.1 (2 * h))
            (n_cells_axis dmin.2 dmax.2 (2 * h)))
          ((n_cells_axis dmin.1 dmax.1 (2 * h) * n_cells_axis dmin.2 dmax.2 (2 * h)).toNat)) i =
      ∑ j ∈ Finset.range positions.length,
        neighborContrib positions velocities densities pressures masses h alpha beta i j := by
  have hqmem : positions.getD i (0,0) ∈ positions := by
    rw [List.getD_eq_getElem _ _ hi]
    exact List.getElem_mem _
  have hF : ∀ j, ¬ (((positions.getD i (0,0)).1 - (positions.getD j (0,0)).1) ^ 2 +
      ((positions.getD i (0,0)).2 - (positions.getD j (0,0)).2) ^ 2 <
      KERNEL_CUTOFF_SQ_FACTOR * h ^ 2) →
      neighborContrib positions velocities densities pressures masses h alpha beta i j = 0 := by
    intro j hc
    unfold neighborContrib
    by_cases hji : j = i
    · rw [if_pos hji]
      rfl
    · rw [if_neg hji]
      by_cases hjv : densities.getD j 0 < MIN_DENSITY
      · rw [if_pos hjv]
        rfl
      · rw [if_neg hjv, if_neg (fun hand => hc hand.1)]
        rfl
  unfold nbrSum cellSliceNbr
  exact grid_window_sum_eq_allpairs positions h dmin dmax hh hx hy hin _ hqmem _ hF

/-- The kernel gradient is a non-positive multiple of the separation vector,
and it is odd in that vector. -/
lemma kernel_grad_structure (rv : Vec2) (h : ℝ) (hh : 0 < h) :
    ∃ c : ℝ, c ≤ 0 ∧ cubic_spline_kernel_grad rv h = (c * rv.1, c * rv.2) ∧
      cubic_spline_kernel_grad (-rv.1, -rv.2) h = (-(c * rv.1), -(c * rv.2)) := by
  have hrneg : ((-rv.1) ^ 2 + (-rv.2) ^ 2) = rv.1 ^ 2 + rv.2 ^ 2 := by ring
  set r := Real.sqrt (rv.1 ^ 2 + rv.2 ^ 2) with hrdef
  have hr0 : 0 ≤ r := Real.sqrt_nonneg _
  have hsig : 0 ≤ KERNEL_PREFACTOR_2D / h ^ 2 := by
    have := kernel_prefactor_pos
    positivity
  unfold cubic_spline_kernel_grad
  rw [hrneg, ← hrdef]
  by_cases hre : r > 1e-12
  · rw [if_pos hre, if_pos hre]
    have hrpos : 0 < r := lt_trans (by norm_num) hre
    have hq0 : 0 ≤ r / h := div_nonneg hr0 hh.le
    by_cases h1 : r / h < 1
    · rw [if_pos h1, if_pos h1]
      refine ⟨KERNEL_PREFACTOR_2D / h ^ 2 * (1.0 / h) *
        (-3.0 * (r / h) + 2.25 * (r / h) ^ 2) / r, ?_, ?_, ?_⟩
      · have hpoly : -3.0 * (r / h) + 2.25 * (r / h) ^ 2 ≤ 0 := by
          nlinarith [hq0, h1]
        have hnum : KERNEL_PREFACTOR_2D / h ^ 2 * (1.0 / h) *
            (-3.0 * (r / h) + 2.25 * (r / h) ^ 2) ≤ 0 := by
          have h1h : 0 ≤ KERNEL_PREFACTOR_2D / h ^ 2 * (1.0 / h) := by positivity
          exact mul_nonpos_of_nonneg_of_nonpos h1h hpoly
        exact div_nonpos_of_nonpos_of_nonneg hnum hr0
      · simp only [Prod.mk.injEq]
        constructor <;> field_simp
      · simp only [Prod.mk.injEq]
        constructor <;> field_simp
    · rw [if_neg h1, if_neg h1]
      by_cases h2 : r / h < 2
      · rw [if_pos h2, if_pos h2]
        refine ⟨KERNEL_PREFACTOR_2D / h ^ 2 * (1.0 / h) *
          (-0.75 * (2.0 - r / h) ^ 2) / r, ?_, ?_, ?_⟩
        · have hpoly : -0.75 * (2.0 - r / h) ^ 2 ≤ 0 := by nlinarith [sq_nonneg (2.0 - r / h)]
          have h1h : 0 ≤ KERNEL_PREFACTOR_2D / h ^ 2 * (1.0 / h) := by positivity
          exact div_nonpos_of_nonpos_of_nonneg (mul_nonpos_of_nonneg_of_nonpos h1h hpoly) hr0
        · simp only [Prod.mk.injEq]
          constructor <;> field_simp
        · simp only [Prod.mk.injEq]
          constructor <;> field_simp
      · rw [if_neg h2, if_neg h2]
        exact ⟨0, le_refl 0, by norm_num, by norm_num⟩
  · rw [if_neg hre, if_neg hre]
    exact ⟨0, le_refl 0, by norm_num, by norm_num⟩

/-! ## Viscous-power bookkeeping (claim C2) -/

lemma range_map_sum_gen {M : Type} [AddCommMonoid M] (n : ℕ) (f : ℕ → M) :
    ((List.range n).map f).sum = ∑ c ∈ Finset.range n, f c := by
  induction n with
  | zero => simp
  | succ m ih =>
    rw [List.range_succ, List.map_append, List.sum_append, Finset.sum_range_succ, ih]
    simp

lemma snd_list_sum (l : List (Vec2 × Vec2)) : l.sum.2 = (l.map Prod.snd).sum := by
  induction l with
  | nil => rfl
  | cons a t ih => rw [List.sum_cons, List.map_cons, List.sum_cons, Prod.snd_add, ih]

lemma fst_list_sum (l : List (Vec2 × Vec2)) : l.sum.1 = (l.map Prod.fst).sum := by
  induction l with
  | nil => rfl
  | cons a t ih => rw [List.sum_cons, List.map_cons, List.sum_cons, Prod.fst_add, ih]

lemma calculate_viscosity_force_alpha_zero (rv vv : Vec2) (r2 rho_i rho_j m_j h : ℝ)
    (grad : Vec2) :
    calculate_viscosity_force rv vv r2 rho_i rho_j m_j h 0 0 grad = (0, 0) := by
  unfold calculate_viscosity_force
  by_cases hv : vv.1 * rv.1 + vv.2 * rv.2 < 0
  · rw [if_pos hv]
    norm_num
  · rw [if_neg hv]

lemma neighborContrib_snd_alpha_zero (positions velocities : List Vec2)
    (densities pressures masses : List ℝ) (h : ℝ) (i j : ℕ) :
    (neighborContrib positions velocities densities pressures masses h 0 0 i j).2 =
      (0 : Vec2) := by
  unfold neighborContrib
  by_cases hji : j = i
  · rw [if_pos hji]
    rfl
  · rw [if_neg hji]
    by_cases hjv : densities.getD j 0 < MIN_DENSITY
    · rw [if_pos hjv]
      rfl
    · rw [if_neg hjv]
      by_cases hw : (((positions.getD i (0,0)).1 - (positions.getD j (0,0)).1) ^ 2 +
            ((positions.getD i (0,0)).2 - (positions.getD j (0,0)).2) ^ 2 <
            KERNEL_CUTOFF_SQ_FACTOR * h ^ 2) ∧
          (((positions.getD i (0,0)).1 - (positions.getD j (0,0)).1) ^ 2 +
            ((positions.getD i (0,0)).2 - (positions.getD j (0,0)).2) ^ 2 > MIN_DIST_SQ)
      · rw [if_pos hw]
        simp only
        rw [calculate_viscosity_force_alpha_zero]
        rfl
      · rw [if_neg hw]
        rfl

lemma compute_forces_power_sum_alpha_zero (positions velocities : List Vec2)
    (densities pressures masses : List ℝ) (h : ℝ) (gravity dmin : Vec2) (gs : ℝ)
    (ncx ncy : ℤ) (offs sorted : List ℕ) (n_active : ℕ) :
    ((compute_forces positions velocities densities pressures masses h gravity dmin gs
        ncx ncy offs sorted n_active 0 0).2).sum = 0 := by
  unfold compute_forces
  simp only
  rw [range_map_sum_gen]
  refine Finset.sum_eq_zero fun i _ => ?_
  by_cases hinv : densities.getD i 0 < MIN_DENSITY
  · rw [if_pos hinv]
  · rw [if_neg hinv]
    have hz : (nbrSum positions velocities densities pressures masses h 0 0 dmin gs
        ncx ncy offs sorted i).2 = 0 := by
      unfold nbrSum
      rw [Prod.snd_sum]
      refine Finset.sum_eq_zero fun d _ => ?_
      by_cases hb : 0 ≤ pyInt (((positions.getD i (0,0)).1 - dmin.1) / gs) + d.1 ∧
          pyInt (((positions.getD i (0,0)).1 - dmin.1) / gs) + d.1 < ncx ∧
          0 ≤ pyInt (((positions.getD i (0,0)).2 - dmin.2) / gs) + d.2 ∧
          pyInt (((positions.getD i (0,0)).2 - dmin.2) / gs) + d.2 < ncy
      · rw [if_pos hb]
        unfold cellSliceNbr
        rw [snd_list_sum, List.map_map]
        have hzl : ∀ l : List ℕ,
            (l.map (Prod.snd ∘ fun j =>
              neighborContrib positions velocities densities pressures masses h 0 0 i j)).sum
              = (0 : Vec2) := by
          intro l
          induction l with
          | nil => rfl
          | cons a t ih =>
            rw [List.map_cons, List.sum_cons, ih]
            have hsnd := neighborContrib_snd_alpha_zero positions velocities densities pressures
              masses h i a
            simp only [Function.comp]
            rw [hsnd]
            exact add_zero 0
        exact hzl _
      · rw [if_neg hb]
        rfl
    rw [hz]
    show -masses.getD i 0 * ((0:Vec2).1 * (velocities.getD i (0,0)).1 +
      (0:Vec2).2 * (velocities.getD i (0,0)).2) = 0
    norm_num

/-- Part of amended C2: with the viscosity coefficient `alpha = 0`, every
step leaves the cumulative internal energy exactly unchanged (for every
state, walls or not): the per-step increment `sum(viscosity_power) * dt` is
identically zero. -/
theorem stepPhysics_energy_const_alpha_zero (cfg : SolverConfig) (s : SolverState)
    (ha : cfg.alpha = 0) :
    (stepPhysics cfg s).internal_energy = s.internal_energy := by
  show s.internal_energy + ((computeAccel cfg s.masses s.densities s.colors s.rho_refs _
    _).2.1).sum * cfg.dt = s.internal_energy
  have : ∀ pos vel : List Vec2,
      ((computeAccel cfg s.masses s.densities s.colors s.rho_refs pos vel).2.1).sum = 0 := by
    intro pos vel
    show ((compute_forces _ _ _ _ _ cfg.h cfg.gravity cfg.domain_min (2 * cfg.h) _ _ _ _
      pos.length cfg.alpha 0).2).sum = 0
    rw [ha]
    exact compute_forces_power_sum_alpha_zero _ _ _ _ _ _ _ _ _ _ _ _ _ _
  rw [this, zero_mul, add_zero]

set_option maxHeartbeats 1000000 in
/-- The two directed viscous-power contributions of one approaching pair sum
to a non-negative dissipation (Monaghan viscosity is dissipative pairwise). -/
lemma pair_power_nonneg (a b : ℝ) (vi vj : Vec2) (rho_i rho_j mi mj h alpha c : ℝ)
    (hh : 0 ≤ h) (hr2 : a ^ 2 + b ^ 2 > MIN_DIST_SQ)
    (hρi : ¬ rho_i < MIN_DENSITY) (hρj : ¬ rho_j < MIN_DENSITY)
    (hmi : 0 ≤ mi) (hmj : 0 ≤ mj) (ha : 0 ≤ alpha) (hc : c ≤ 0) :
    0 ≤ -mi * ((calculate_viscosity_force (a, b) (vi.1 - vj.1, vi.2 - vj.2) (a ^ 2 + b ^ 2)
            rho_i rho_j mj h alpha 0 (c * a, c * b)).1 * vi.1 +
          (calculate_viscosity_force (a, b) (vi.1 - vj.1, vi.2 - vj.2) (a ^ 2 + b ^ 2)
            rho_i rho_j mj h alpha 0 (c * a, c * b)).2 * vi.2) +
      -mj * ((calculate_viscosity_force (-a, -b) (vj.1 - vi.1, vj.2 - vi.2)
            ((-a) ^ 2 + (-b) ^ 2) rho_j rho_i mi h alpha 0 (-(c * a), -(c * b))).1 * vj.1 +
          (calculate_viscosity_force (-a, -b) (vj.1 - vi.1, vj.2 - vi.2)
            ((-a) ^ 2 + (-b) ^ 2) rho_j rho_i mi h alpha 0 (-(c * a), -(c * b))).2 * vj.2) := by
  have hmd : (0:ℝ) < MIN_DIST_SQ := by
    unfold MIN_DIST_SQ
    norm_num
  have hr2pos : 0 < a ^ 2 + b ^ 2 := lt_trans hmd hr2
  have hρ : (0:ℝ) < (rho_i + rho_j) / 2 := by
    have h01 : (0.1 : ℝ) ≤ MIN_DENSITY := by
      unfold MIN_DENSITY
      norm_num
    push_neg at hρi hρj
    linarith
  unfold calculate_viscosity_force
  simp only
  by_cases hvdr : (vi.1 - vj.1) * a + (vi.2 - vj.2) * b < 0
  · have hvdr2 : (vj.1 - vi.1) * -a + (vj.2 - vi.2) * -b < 0 := by nlinarith
    rw [if_pos hvdr, if_pos hvdr2]
    have hdenom : 0 < a ^ 2 + b ^ 2 + VISCOSITY_EPSILON * h ^ 2 := by
      have : (0:ℝ) ≤ VISCOSITY_EPSILON * h ^ 2 := by
        unfold VISCOSITY_EPSILON
        positivity
      linarith
    have hdenom' : 0 < (-a) ^ 2 + (-b) ^ 2 + VISCOSITY_EPSILON * h ^ 2 := by
      have : (-a) ^ 2 + (-b) ^ 2 = a ^ 2 + b ^ 2 := by ring
      rw [this]
      exact hdenom
    have hμ : h * ((vi.1 - vj.1) * a + (vi.2 - vj.2) * b) /
        (a ^ 2 + b ^ 2 + VISCOSITY_EPSILON * h ^ 2) ≤ 0 := by
      apply div_nonpos_of_nonpos_of_nonneg _ hdenom.le
      nlinarith
    set μ := h * ((vi.1 - vj.1) * a + (vi.2 - vj.2) * b) /
      (a ^ 2 + b ^ 2 + VISCOSITY_EPSILON * h ^ 2) with hμdef
    have hμ'eq : h * ((vj.1 - vi.1) * -a + (vj.2 - vi.2) * -b) /
        ((-a) ^ 2 + (-b) ^ 2 + VISCOSITY_EPSILON * h ^ 2) = μ := by
      rw [hμdef]
      congr 1
      · ring
      · ring
    rw [hμ'eq]
    have hρswap : (rho_j + rho_i) / 2 = (rho_i + rho_j) / 2 := by ring
    rw [hρswap]
    set Φ := (-alpha * SOUND_SPEED * μ + 0 * μ ^ 2) / ((rho_i + rho_j) / 2) with hΦdef
    have hΦ0 : 0 ≤ Φ := by
      rw [hΦdef]
      apply div_nonneg _ hρ.le
      have hss : (0:ℝ) ≤ SOUND_SPEED := by
        unfold SOUND_SPEED
        norm_num
      nlinarith [mul_nonneg (mul_nonneg ha hss) (neg_nonneg.mpr hμ)]
    have hcv : 0 ≤ c * ((vi.1 - vj.1) * a + (vi.2 - vj.2) * b) := by
      nlinarith [mul_nonneg (neg_nonneg.mpr hc) (neg_nonneg.mpr hvdr.le)]
    have hprod : 0 ≤ mi * mj * Φ * (c * ((vi.1 - vj.1) * a + (vi.2 - vj.2) * b)) :=
      mul_nonneg (mul_nonneg (mul_nonneg hmi hmj) hΦ0) hcv
    ring_nf
    ring_nf at hprod
    linarith [hprod]
  · have hvdr2 : ¬ ((vj.1 - vi.1) * -a + (vj.2 - vi.2) * -b < 0) := by
      intro hcon
      apply hvdr
      nlinarith
    rw [if_neg hvdr, if_neg hvdr2]
    norm_num

/-- The directed viscous-power contribution of neighbor `j` to particle `i`
(one summand of `viscosity_power[i]`). -/
def powContrib (positions velocities : List Vec2) (densities pressures masses : List ℝ)
    (h alpha : ℝ) (i j : ℕ) : ℝ :=
  if densities.getD i 0 < MIN_DENSITY then 0
  else
    -masses.getD i 0 *
      ((neighborContrib positions velocities densities pressures masses h alpha 0 i j).2.1 *
          (velocities.getD i (0,0)).1 +
        (neighborContrib positions velocities densities pressures masses h alpha 0 i j).2.2 *
          (velocities.getD i (0,0)).2)

set_option maxHeartbeats 2000000 in
lemma powContrib_pair_nonneg (positions velocities : List Vec2)
    (densities pressures masses : List ℝ) (h alpha : ℝ)
    (hh : 0 < h) (hmass : ∀ k, 0 ≤ masses.getD k 0) (ha : 0 ≤ alpha) (i j : ℕ) :
    0 ≤ powContrib positions velocities densities pressures masses h alpha i j +
        powContrib positions velocities densities pressures masses h alpha j i := by
  unfold powContrib
  by_cases hij : i = j
  · subst hij
    by_cases hinv : densities.getD i 0 < MIN_DENSITY
    · rw [if_pos hinv]
      norm_num
    · rw [if_neg hinv]
      have hself : (neighborContrib positions velocities densities pressures masses
          h alpha 0 i i).2 = 0 := by
        unfold neighborContrib
        rw [if_pos rfl]
        rfl
      rw [hself]
      show (0:ℝ) ≤ -masses.getD i 0 * ((0:Vec2).1 * (velocities.getD i (0,0)).1 +
        (0:Vec2).2 * (velocities.getD i (0,0)).2) +
        -masses.getD i 0 * ((0:Vec2).1 * (velocities.getD i (0,0)).1 +
        (0:Vec2).2 * (velocities.getD i (0,0)).2)
      norm_num
  · have hij' : ¬ j = i := fun hc => hij hc.symm
    by_cases hinvi : densities.getD i 0 < MIN_DENSITY
    · rw [if_pos hinvi]
      by_cases hinvj : densities.getD j 0 < MIN_DENSITY
      · rw [if_pos hinvj]
        norm_num
      · rw [if_neg hinvj]
        have hji : (neighborContrib positions velocities densities pressures masses
            h alpha 0 j i).2 = 0 := by
          unfold neighborContrib
          rw [if_neg hij, if_pos hinvi]
          rfl
        rw [hji]
        show (0:ℝ) ≤ 0 + -masses.getD j 0 * ((0:Vec2).1 * (velocities.getD j (0,0)).1 +
          (0:Vec2).2 * (velocities.getD j (0,0)).2)
        norm_num
    · rw [if_neg hinvi]
      by_cases hinvj : densities.getD j 0 < MIN_DENSITY
      · rw [if_pos hinvj]
        have hije : (neighborContrib positions velocities densities pressures masses
            h alpha 0 i j).2 = 0 := by
          unfold neighborContrib
          rw [if_neg hij', if_pos hinvj]
          rfl
        rw [hije]
        show (0:ℝ) ≤ -masses.getD i 0 * ((0:Vec2).1 * (velocities.getD i (0,0)).1 +
          (0:Vec2).2 * (velocities.getD i (0,0)).2) + 0
        norm_num
      · rw [if_neg hinvj]
        have hwsym : (((positions.getD j (0,0)).1 - (positions.getD i (0,0)).1) ^ 2 +
            ((positions.getD j (0,0)).2 - (positions.getD i (0,0)).2) ^ 2) =
            (((positions.getD i (0,0)).1 - (positions.getD j (0,0)).1) ^ 2 +
            ((positions.getD i (0,0)).2 - (positions.getD j (0,0)).2) ^ 2) := by ring
        by_cases hw : (((positions.getD i (0,0)).1 - (positions.getD j (0,0)).1) ^ 2 +
              ((positions.getD i (0,0)).2 - (positions.getD j (0,0)).2) ^ 2 <
              KERNEL_CUTOFF_SQ_FACTOR * h ^ 2) ∧
            (((positions.getD i (0,0)).1 - (positions.getD j (0,0)).1) ^ 2 +
              ((positions.getD i (0,0)).2 - (positions.getD j (0,0)).2) ^ 2 > MIN_DIST_SQ)
        · have hw' : (((positions.getD j (0,0)).1 - (positions.getD i (0,0)).1) ^ 2 +
                ((positions.getD j (0,0)).2 - (positions.getD i (0,0)).2) ^ 2 <
                KERNEL_CUTOFF_SQ_FACTOR * h ^ 2) ∧
              (((positions.getD j (0,0)).1 - (positions.getD i (0,0)).1) ^ 2 +
                ((positions.getD j (0,0)).2 - (positions.getD i (0,0)).2) ^ 2 >
                MIN_DIST_SQ) := by
            rw [hwsym]
            exact hw
          have hfvij : (neighborContrib positions velocities densities pressures masses
              h alpha 0 i j).2 =
              calculate_viscosity_force
                ((positions.getD i (0,0)).1 - (positions.getD j (0,0)).1,
                 (positions.getD i (0,0)).2 - (positions.getD j (0,0)).2)
                ((velocities.getD i (0,0)).1 - (velocities.getD j (0,0)).1,
                 (velocities.getD i (0,0)).2 - (velocities.getD j (0,0)).2)
                (((positions.getD i (0,0)).1 - (positions.getD j (0,0)).1) ^ 2 +
                 ((positions.getD i (0,0)).2 - (positions.getD j (0,0)).2) ^ 2)
                (densities.getD i 0) (densities.getD j 0) (masses.getD j 0) h alpha 0
                (cubic_spline_kernel_grad
                  ((positions.getD i (0,0)).1 - (positions.getD j (0,0)).1,
                   (positions.getD i (0,0)).2 - (positions.getD j (0,0)).2) h) := by
            unfold neighborContrib
            rw [if_neg hij', if_neg hinvj, if_pos hw]
          have hfvji : (neighborContrib positions velocities densities pressures masses
              h alpha 0 j i).2 =
              calculate_viscosity_force
                ((positions.getD j (0,0)).1 - (positions.getD i (0,0)).1,
                 (positions.getD j (0,0)).2 - (positions.getD i (0,0)).2)
                ((velocities.getD j (0,0)).1 - (velocities.getD i (0,0)).1,
                 (velocities.getD j (0,0)).2 - (velocities.getD i (0,0)).2)
                (((positions.getD j (0,0)).1 - (positions.getD i (0,0)).1) ^ 2 +
                 ((positions.getD j (0,0)).2 - (positions.getD i (0,0)).2) ^ 2)
                (densities.getD j 0) (densities.getD i 0) (masses.getD i 0) h alpha 0
                (cubic_spline_kernel_grad
                  ((positions.getD j (0,0)).1 - (positions.getD i (0,0)).1,
                   (positions.getD j (0,0)).2 - (positions.getD i (0,0)).2) h) := by
            unfold neighborContrib
            rw [if_neg hij, if_neg hinvi, if_pos hw']
          rw [hfvij, hfvji]
          obtain ⟨c, hc, hg1, hg2⟩ := kernel_grad_structure
            ((positions.getD i (0,0)).1 - (positions.getD j (0,0)).1,
             (positions.getD i (0,0)).2 - (positions.getD j (0,0)).2) h hh
          simp only at hg1 hg2
          have e1 : (positions.getD j (0,0)).1 - (positions.getD i (0,0)).1 =
              -((positions.getD i (0,0)).1 - (positions.getD j (0,0)).1) := by ring
          have e2 : (positions.getD j (0,0)).2 - (positions.getD i (0,0)).2 =
              -((positions.getD i (0,0)).2 - (positions.getD j (0,0)).2) := by ring
          rw [e1, e2, hg1, hg2]
          exact pair_power_nonneg _ _ _ _ _ _ _ _ _ _ _ hh.le hw.2 hinvi hinvj
            (hmass i) (hmass j) ha hc
        · have hw' : ¬ ((((positions.getD j (0,0)).1 - (positions.getD i (0,0)).1) ^ 2 +
                ((positions.getD j (0,0)).2 - (positions.getD i (0,0)).2) ^ 2 <
                KERNEL_CUTOFF_SQ_FACTOR * h ^ 2) ∧
              (((positions.getD j (0,0)).1 - (positions.getD i (0,0)).1) ^ 2 +
                ((positions.getD j (0,0)).2 - (positions.getD i (0,0)).2) ^ 2 >
                MIN_DIST_SQ)) := by
            rw [hwsym]
            exact hw
          have hfvij : (neighborContrib positions velocities densities pressures masses
              h alpha 0 i j).2 = 0 := by
            unfold neighborContrib
            rw [if_neg hij', if_neg hinvj, if_neg hw]
            rfl
          have hfvji : (neighborContrib positions velocities densities pressures masses
              h alpha 0 j i).2 = 0 := by
            unfold neighborContrib
            rw [if_neg hij, if_neg hinvi, if_neg hw']
            rfl
          rw [hfvij, hfvji]
          show (0:ℝ) ≤ -masses.getD i 0 * ((0:Vec2).1 * (velocities.getD i (0,0)).1 +
            (0:Vec2).2 * (velocities.getD i (0,0)).2) +
            -masses.getD j 0 * ((0:Vec2).1 * (velocities.getD j (0,0)).1 +
            (0:Vec2).2 * (velocities.getD j (0,0)).2)
          norm_num

set_option maxHeartbeats 2000000 in
/-- Amended C2 (positive part): when every particle of the set also
accumulates its own viscous power (`n_active` is the whole set, as in a step
with no ghosts), positions are within one cell size of the box, masses are
non-negative and `alpha ≥ 0`, the total dissipated power
`sum(viscosity_power)` is non-negative. -/
theorem viscous_power_sum_nonneg (positions velocities : List Vec2)
    (densities pressures masses : List ℝ) (h alpha : ℝ) (gravity dmin dmax : Vec2)
    (hh : 0 < h) (hx : dmin.1 ≤ dmax.1) (hy : dmin.2 ≤ dmax.2)
    (hin : ∀ p ∈ positions, dmin.1 - 2 * h < p.1 ∧ p.1 < dmax.1 + 2 * h ∧
      dmin.2 - 2 * h < p.2 ∧ p.2 < dmax.2 + 2 * h)
    (hmass : ∀ k, 0 ≤ masses.getD k 0) (ha : 0 ≤ alpha) :
    0 ≤ ((compute_forces positions velocities densities pressures masses h gravity dmin
        (2 * h) (n_cells_axis dmin.1 dmax.1 (2 * h)) (n_cells_axis dmin.2 dmax.2 (2 * h))
        (gridOffsets (cellIds positions dmin (2 * h) (n_cells_axis dmin.1 dmax.1 (2 * h))
            (n_cells_axis dmin.2 dmax.2 (2 * h)))
          ((n_cells_axis dmin.1 dmax.1 (2 * h) * n_cells_axis dmin.2 dmax.2 (2 * h)).toNat))
        (gridSorted (cellIds positions dmin (2 * h) (n_cells_axis dmin.1 dmax.1 (2 * h))
            (n_cells_axis dmin.2 dmax.2 (2 * h)))
          ((n_cells_axis dmin.1 dmax.1 (2 * h) * n_cells_axis dmin.2 dmax.2 (2 * h)).toNat))
        positions.length alpha 0).2).sum := by
  unfold compute_forces
  simp only
  rw [range_map_sum_gen]
  have hterm : ∀ i ∈ Finset.range positions.length,
      (if densities.getD i 0 < MIN_DENSITY then (0:ℝ)
       else
        -masses.getD i 0 *
          ((nbrSum positions velocities densities pressures masses h alpha 0
              dmin (2 * h) (n_cells_axis dmin.1 dmax.1 (2 * h))
              (n_cells_axis dmin.2 dmax.2 (2 * h))
              (gridOffsets (cellIds positions dmin (2 * h)
                  (n_cells_axis dmin.1 dmax.1 (2 * h)) (n_cells_axis dmin.2 dmax.2 (2 * h)))
                ((n_cells_axis dmin.1 dmax.1 (2 * h) *
                  n_cells_axis dmin.2 dmax.2 (2 * h)).toNat))
              (gridSorted (cellIds positions dmin (2 * h)
                  (n_cells_axis dmin.1 dmax.1 (2 * h)) (n_cells_axis dmin.2 dmax.2 (2 * h)))
                ((n_cells_axis dmin.1 dmax.1 (2 * h) *
                  n_cells_axis dmin.2 dmax.2 (2 * h)).toNat)) i).2.1 *
            (velocities.getD i (0,0)).1 +
           (nbrSum positions velocities densities pressures masses h alpha 0
              dmin (2 * h) (n_cells_axis dmin.1 dmax.1 (2 * h))
              (n_cells_axis dmin.2 dmax.2 (2 * h))
              (gridOffsets (cellIds positions dmin (2 * h)
                  (n_cells_axis dmin.1 dmax.1 (2 * h)) (n_cells_axis dmin.2 dmax.2 (2 * h)))
                ((n_cells_axis dmin.1 dmax.1 (2 * h) *
                  n_cells_axis dmin.2 dmax.2 (2 * h)).toNat))
              (gridSorted (cellIds positions dmin (2 * h)
                  (n_cells_axis dmin.1 dmax.1 (2 * h)) (n_cells_axis dmin.2 dmax.2 (2 * h)))
                ((n_cells_axis dmin.1 dmax.1 (2 * h) *
                  n_cells_axis dmin.2 dmax.2 (2 * h)).toNat)) i).2.2 *
            (velocities.getD i (0,0)).2)) =
      ∑ j ∈ Finset.range positions.length,
        powContrib positions velocities densities pressures masses h alpha i j := by
    intro i hi
    by_cases hinv : densities.getD i 0 < MIN_DENSITY
    · rw [if_pos hinv]
      symm
      refine Finset.sum_eq_zero fun j _ => ?_
      unfold powContrib
      rw [if_pos hinv]
    · rw [if_neg hinv]
      rw [nbrSum_eq_allpairs positions velocities densities pressures masses h alpha 0
        dmin dmax hh hx hy hin i (Finset.mem_range.mp hi)]
      rw [Prod.snd_sum, Prod.fst_sum, Prod.snd_sum, Finset.sum_mul, Finset.sum_mul,
        ← Finset.sum_add_distrib, Finset.mul_sum]
      refine Finset.sum_congr rfl fun j _ => ?_
      unfold powContrib
      rw [if_neg hinv]
  rw [Finset.sum_congr rfl hterm]
  set T := ∑ i ∈ Finset.range positions.length, ∑ j ∈ Finset.range positions.length,
    powContrib positions velocities densities pressures masses h alpha i j with hT
  have hswap : T = ∑ i ∈ Finset.range positions.length,
      ∑ j ∈ Finset.range positions.length,
        powContrib positions velocities densities pressures masses h alpha j i := by
    rw [hT]
    exact Finset.sum_comm
  have hdouble : 2 * T = ∑ i ∈ Finset.range positions.length,
      ∑ j ∈ Finset.range positions.length,
        (powContrib positions velocities densities pressures masses h alpha i j +
         powContrib positions velocities densities pressures masses h alpha j i) := by
    have hsplit : ∑ i ∈ Finset.range positions.length, ∑ j ∈ Finset.range positions.length,
        (powContrib positions velocities densities pressures masses h alpha i j +
         powContrib positions velocities densities pressures masses h alpha j i) =
        (∑ i ∈ Finset.range positions.length, ∑ j ∈ Finset.range positions.length,
          powContrib positions velocities densities pressures masses h alpha i j) +
        ∑ i ∈ Finset.range positions.length, ∑ j ∈ Finset.range positions.length,
          powContrib positions velocities densities pressures masses h alpha j i := by
      rw [← Finset.sum_add_distrib]
      refine Finset.sum_congr rfl fun i _ => Finset.sum_add_distrib
    rw [hsplit, ← hT, ← hswap]
    ring
  have hpos : 0 ≤ ∑ i ∈ Finset.range positions.length,
      ∑ j ∈ Finset.range positions.length,
        (powContrib positions velocities densities pressures masses h alpha i j +
         powContrib positions velocities densities pressures masses h alpha j i) :=
    Finset.sum_nonneg fun i _ => Finset.sum_nonneg fun j _ =>
      powContrib_pair_nonneg positions velocities densities pressures masses h alpha
        hh hmass ha i j
  linarith [hdouble, hpos]

end

end SPH
